import Mathlib

/-!
Verification of the terminal-display raster engine (src/src/lib.rs and
src/src/color.rs of the repository).  The engine renders a pixel surface
onto a character-cell terminal: each terminal cell holds two vertically
stacked pixels, remembered in a per-cell `(top, bottom)` color buffer.

The embedding is executable: terminal sizes are `Nat` (Rust `u16`, with
`< 2 ^ 16` hypotheses carried by theorems), pixel coordinates are `Int`
(Rust `i32`, with wrapping modelled explicitly by `wrap32` where the code
can overflow), rectangle extents are `Nat` (Rust `u32`), and the output
sink is a list of queued commands.  Iterators of colors become `List Color`
threaded through the drawing functions; the consumption contract is read
off the returned remainder of the list.

The geometric helpers of the external `embedded_graphics_core` crate
(`Rectangle::bottom_right`, `intersection`, `contains`, `rows`, `columns`)
are modelled from that crate's documented semantics; each definition notes
where its arithmetic is exact versus wrapped.
-/

namespace TerminalDisplay

/-- Two's-complement wrap of an integer into the `i32` range
`[-2 ^ 31, 2 ^ 31)`, the release-mode behaviour of overflowing `i32`
arithmetic and of `u32 as i32` casts in Rust. -/
def wrap32 (n : Int) : Int :=
  (n + 2 ^ 31) % 2 ^ 32 - 2 ^ 31

/-- The largest value of a 64-bit `usize`. -/
def usizeMAX : Nat := 2 ^ 64 - 1

/-- Model of `usize::try_from(v)` on an `i32` value `v`, followed by
`.unwrap_or(usize::MAX)`: a non-negative `i32` always fits in a 64-bit
`usize`, and a negative one makes the conversion fail. -/
def usizeOfI32 (v : Int) : Nat :=
  if 0 ≤ v then v.toNat else usizeMAX

/-- Model of `x as u16` on an `i32` value: truncation mod `2 ^ 16`
(exact two's-complement cast semantics, also for negative inputs). -/
def u16ofI32 (v : Int) : Nat :=
  (v % 2 ^ 16).toNat

/-- The color enumeration of src/src/color.rs.  `Rgb` carries the three
`u8` channels of the wrapped `Rgb888` value. -/
inductive Color where
  | BgColor
  | FgColor
  | Black
  | DarkGrey
  | Red
  | DarkRed
  | Green
  | DarkGreen
  | Yellow
  | DarkYellow
  | Blue
  | DarkBlue
  | Magenta
  | DarkMagenta
  | Cyan
  | DarkCyan
  | White
  | Grey
  | Rgb (r g b : Nat)
  | AnsiValue (n : Nat)
deriving DecidableEq, Repr

/-- The crossterm color type targeted by `Color::to_crossterm_color`. -/
inductive CrosstermColor where
  | Reset
  | Black
  | DarkGrey
  | Red
  | DarkRed
  | Green
  | DarkGreen
  | Yellow
  | DarkYellow
  | Blue
  | DarkBlue
  | Magenta
  | DarkMagenta
  | Cyan
  | DarkCyan
  | White
  | Grey
  | Rgb (r g b : Nat)
  | AnsiValue (n : Nat)
deriving DecidableEq, Repr

/-- Model of `Color::to_crossterm_color` (src/src/color.rs). -/
def Color.toCrosstermColor : Color → CrosstermColor
  | .BgColor => .Reset
  | .FgColor => .Reset
  | .Black => .Black
  | .DarkGrey => .DarkGrey
  | .Red => .Red
  | .DarkRed => .DarkRed
  | .Green => .Green
  | .DarkGreen => .DarkGreen
  | .Yellow => .Yellow
  | .DarkYellow => .DarkYellow
  | .Blue => .Blue
  | .DarkBlue => .DarkBlue
  | .Magenta => .Magenta
  | .DarkMagenta => .DarkMagenta
  | .Cyan => .Cyan
  | .DarkCyan => .DarkCyan
  | .White => .White
  | .Grey => .Grey
  | .Rgb r g b => .Rgb r g b
  | .AnsiValue n => .AnsiValue n

/-- The four glyphs the engine can draw in a cell: the space written for a
fully-background cell, the solid block written for a fully-foreground cell,
and the lower/upper half blocks. -/
inductive Glyph where
  | space
  | full
  | lower
  | upper
deriving DecidableEq, Repr

/-- A terminal command queued to the buffered output sink. -/
inductive Command where
  | setBackground (c : CrosstermColor)
  | setForeground (c : CrosstermColor)
  | moveTo (column row : Nat)
  | writeGlyph (g : Glyph)
deriving DecidableEq, Repr

/-- Whether a command sets a terminal color (foreground or background). -/
def Command.isColorSet : Command → Bool
  | .setBackground _ => true
  | .setForeground _ => true
  | _ => false

/-- Whether a command writes a glyph. -/
def Command.isGlyphWrite : Command → Bool
  | .writeGlyph _ => true
  | _ => false

/-- Model of the free function `write_cell` (src/src/lib.rs lines 27-50):
the commands queued for a cell whose resulting halves are
`(topColor, bottomColor)`.  The four arms mirror the Rust `match`, tested
in order: both-background, both-foreground, the guarded lower-half-block
arm, and the catch-all upper-half-block arm. -/
def writeCell (topColor bottomColor : Color) : List Command :=
  if topColor = Color.BgColor ∧ bottomColor = Color.BgColor then
    [.setBackground .Reset, .writeGlyph .space]
  else if topColor = Color.FgColor ∧ bottomColor = Color.FgColor then
    [.setForeground .Reset, .writeGlyph .full]
  else if topColor ≠ Color.FgColor ∧ bottomColor ≠ Color.BgColor then
    [.setBackground topColor.toCrosstermColor,
     .setForeground bottomColor.toCrosstermColor,
     .writeGlyph .lower]
  else
    [.setBackground bottomColor.toCrosstermColor,
     .setForeground topColor.toCrosstermColor,
     .writeGlyph .upper]

/-- A pixel-space point (`embedded_graphics_core::geometry::Point`, two
`i32` fields). -/
structure Point where
  x : Int
  y : Int
deriving DecidableEq, Repr

/-- A size (`embedded_graphics_core::geometry::Size`, two `u32` fields). -/
structure Size where
  width : Nat
  height : Nat
deriving DecidableEq, Repr

/-- A pixel-space rectangle (`embedded_graphics_core::primitives::Rectangle`). -/
structure Rectangle where
  topLeft : Point
  size : Size
deriving DecidableEq, Repr

/-- The zero-sized rectangle at the origin. -/
def Rectangle.zero : Rectangle := ⟨⟨0, 0⟩, ⟨0, 0⟩⟩

/-- Model of `Rectangle::bottom_right`: `None` for a zero-sized rectangle,
otherwise `top_left + size - (1, 1)` computed in `i32` arithmetic (the
crate casts the `u32` extents to `i32` and adds; both steps wrap in
release mode, which `wrap32` of the exact sum reproduces). -/
def Rectangle.bottomRight (r : Rectangle) : Option Point :=
  if r.size.width ≠ 0 ∧ r.size.height ≠ 0 then
    some ⟨wrap32 (r.topLeft.x + r.size.width - 1), wrap32 (r.topLeft.y + r.size.height - 1)⟩
  else none

/-- Model of `Rectangle::intersection`, from the crate's documented
contract: the overlapping region of the two rectangles, and a zero-sized
rectangle when they do not overlap (in particular whenever either operand
is zero-sized).  The overlap test and corner arithmetic are exact; they
agree with the crate whenever the corner coordinates involved do not wrap
`i32`, which holds for every rectangle the engine passes in (one operand
is always the terminal bounding box). -/
def Rectangle.intersection (self other : Rectangle) : Rectangle :=
  match self.bottomRight, other.bottomRight with
  | some sbr, some obr =>
    let tlx := max self.topLeft.x other.topLeft.x
    let tly := max self.topLeft.y other.topLeft.y
    let brx := min sbr.x obr.x
    let bry := min sbr.y obr.y
    if tlx ≤ brx ∧ tly ≤ bry then
      ⟨⟨tlx, tly⟩, ⟨(brx - tlx + 1).toNat, (bry - tly + 1).toNat⟩⟩
    else Rectangle.zero
  | _, _ => Rectangle.zero

/-- Model of `Rectangle::contains` (via `ContainsPoint`): the point is at
or right/below the top-left corner and at or left/above the bottom-right
corner; always false for a zero-sized rectangle. -/
def Rectangle.contains (r : Rectangle) (p : Point) : Bool :=
  decide (r.topLeft.x ≤ p.x) && decide (r.topLeft.y ≤ p.y) &&
    match r.bottomRight with
    | some br => decide (p.x ≤ br.x) && decide (p.y ≤ br.y)
    | none => false

/-- Model of `Rectangle::rows`: the y coordinates covered by the
rectangle, in increasing order.  The crate clamps the exclusive end of the
range into `i32`; the engine only calls this on the clamped (visible)
rectangle, which is contained in the terminal bounding box, where the
clamp never fires and both definitions agree. -/
def Rectangle.rows (r : Rectangle) : List Int :=
  (List.range r.size.height).map fun (i : Nat) => r.topLeft.y + (i : Int)

/-- Model of `Rectangle::columns`: the x coordinates covered by the
rectangle, in increasing order; same modelling note as `Rectangle.rows`. -/
def Rectangle.columns (r : Rectangle) : List Int :=
  (List.range r.size.width).map fun (i : Nat) => r.topLeft.x + (i : Int)

/-- Model of the free function `size` (src/src/lib.rs lines 14-16): the
pixel size of a `width x height` character terminal. -/
def size (width height : Nat) : Size :=
  ⟨width, 2 * height⟩

/-- Model of the free function `bounding_box` (src/src/lib.rs lines 20-25). -/
def boundingBox (width height : Nat) : Rectangle :=
  ⟨⟨0, 0⟩, size width height⟩

/-- A cell holding the default terminal background in both halves, the
value new buffer cells are created with. -/
def defaultCell : Color × Color := (Color.BgColor, Color.BgColor)

/-- The cell buffer: a row-major vector of rows of `(top, bottom)` cells,
mirroring `TerminalDisplay::buffer : Vec<Vec<(Color, Color)>>`. -/
abbrev Buffer := List (List (Color × Color))

/-- Read the cell at `(row, column)`.  Rust indexes with a panicking
bounds check; the model totalises with the default cell, and the safety
theorem for the repository shows every access the engine performs is in
range of the resized buffer, so the two never differ on a reachable
access. -/
def getCell (buffer : Buffer) (row column : Nat) : Color × Color :=
  (buffer.getD row []).getD column defaultCell

/-- Write the cell at `(row, column)` (no-op out of range, unreachable for
the engine by the safety theorem). -/
def setCell (buffer : Buffer) (row column : Nat) (cell : Color × Color) : Buffer :=
  buffer.set row ((buffer.getD row []).set column cell)

/-- Merge a color into one half of a cell, leaving the other half
untouched: the common mutation `*top_color = color` /
`*bottom_color = color` performed by `draw_iter` and `fill_contiguous`. -/
def updateHalf (cell : Color × Color) (isTop : Bool) (color : Color) : Color × Color :=
  if isTop then (color, cell.2) else (cell.1, color)

/-- Model of `Vec::resize`: truncate or pad with `v` to length `n`. -/
def listResize {α : Type} (l : List α) (n : Nat) (v : α) : List α :=
  l.take n ++ List.replicate (n - l.length) v

/-- Model of `TerminalDisplay::resize` (src/src/lib.rs lines 89-103)
applied to a freshly queried terminal size `(width, height)`: if the row
length differs from `width` every row is resized, and if the row count
differs from `height` the list of rows is resized with fresh default
rows. -/
def resizeBuffer (buffer : Buffer) (width height : Nat) : Buffer :=
  let buffer :=
    if (buffer.getD 0 []).length ≠ width then
      buffer.map fun row => listResize row width defaultCell
    else buffer
  if buffer.length ≠ height then
    listResize buffer height (List.replicate width defaultCell)
  else buffer

/-- A buffer correctly sized for a `width x height` terminal. -/
def bufferWF (buffer : Buffer) (width height : Nat) : Prop :=
  buffer.length = height ∧ ∀ row ∈ buffer, row.length = width

/-- The state the engine mutates during one call, after the initial
resize: the cell buffer, the queued command list (in emission order), and
the instrumentation list of every `(row, column)` buffer index the engine
dereferences (each recorded just before the corresponding Rust indexing
expression executes). -/
structure EngineState where
  buffer : Buffer
  commands : List Command
  accesses : List (Nat × Nat)
deriving DecidableEq, Repr

/-- Model of `DrawTarget::draw_iter` (src/src/lib.rs lines 154-180) after
the resize, processing the pixel list in order: a pixel inside the
bounding box is mapped to `(row = y / 2, column = x)` (both divisions on
non-negative values, so Lean and Rust division agree), merged into its
half of the cell, and redrawn; a pixel outside is skipped. -/
def drawIter (width height : Nat) (pixels : List (Point × Color)) (st : EngineState) :
    EngineState :=
  match pixels with
  | [] => st
  | (point, color) :: rest =>
    if (boundingBox width height).contains point then
      let column := u16ofI32 point.x
      let row := u16ofI32 (point.y / 2)
      let st := { st with commands := st.commands ++ [Command.moveTo column row] }
      let st := { st with accesses := st.accesses ++ [(row, column)] }
      let cell := updateHalf (getCell st.buffer row column) (decide (point.y % 2 = 0)) color
      let st := { st with buffer := setCell st.buffer row column cell,
                          commands := st.commands ++ writeCell cell.1 cell.2 }
      drawIter width height rest st
    else
      drawIter width height rest st

/-- Model of the local helper `advance_by` in `fill_contiguous`
(src/src/lib.rs lines 222-226) and of the `Iterator::skip` adapter once
its laziness is forced: drop up to `n` leading elements. -/
def advanceBy (colors : List Color) (n : Nat) : List Color :=
  colors.drop n

/-- Model of the padding computation of `fill_contiguous`
(src/src/lib.rs lines 193-215): the `i32` subtractions wrap (release
mode), and each result is converted to `usize` saturating failed
conversions to `usize::MAX` via `unwrap_or`.  Returns
`(left_padding, right_padding, top_padding)` for the given area, clamped
area and their bottom-right corners. -/
def fillPaddings (area clamped : Rectangle) (abr cbr : Point) : Nat × Nat × Nat :=
  (usizeOfI32 (wrap32 (clamped.topLeft.x - area.topLeft.x)),
   usizeOfI32 (wrap32 (abr.x - cbr.x)),
   usizeOfI32 (wrap32 (clamped.topLeft.y - area.topLeft.y)))

/-- Model of the skip count `area.size.width * top_padding` fed to
`Iterator::skip` (src/src/lib.rs lines 217-219): the `u32` width always
fits a 64-bit `usize` (so its `try_into().unwrap_or` is the identity) and
the `usize` multiplication wraps modulo `2 ^ 64` in release mode. -/
def fillSkipCount (area : Rectangle) (topPadding : Nat) : Nat :=
  (area.size.width * topPadding) % 2 ^ 64

/-- Model of the inner column loop of `fill_contiguous`
(src/src/lib.rs lines 241-267) for one visible row `y`: for each visible
column, pull the next color (recording the buffer access the Rust code
performs unconditionally), merge it into the `y`-parity half when present,
and queue the cell's glyph when the row is a bottom half or the last
visible row; when the sequence is exhausted on a top half or on the first
visible row, stop the whole fill (third component `false`). -/
def fillContiguousCols (startY endY y : Int) (row : Nat) (xs : List Int)
    (st : EngineState) (colors : List Color) : EngineState × List Color × Bool :=
  match xs with
  | [] => (st, colors, true)
  | x :: rest =>
    let column := u16ofI32 x
    let isTop : Bool := decide (y % 2 = 0)
    let st := { st with accesses := st.accesses ++ [(row, column)] }
    match colors.head? with
    | some color =>
      let cell := updateHalf (getCell st.buffer row column) isTop color
      let st := { st with buffer := setCell st.buffer row column cell }
      let st :=
        if isTop = false ∨ y = endY then
          { st with commands := st.commands ++ writeCell cell.1 cell.2 }
        else st
      fillContiguousCols startY endY y row rest st colors.tail
    | none =>
      if isTop = true ∨ y = startY then
        (st, colors.tail, false)
      else
        let cell := getCell st.buffer row column
        let st :=
          if isTop = false ∨ y = endY then
            { st with commands := st.commands ++ writeCell cell.1 cell.2 }
          else st
        fillContiguousCols startY endY y row rest st colors.tail

/-- Model of the row loop of `fill_contiguous` (src/src/lib.rs lines
228-271): per visible row, queue the cursor move, skip the clipped left
margin, run the column loop, and skip the clipped right margin — unless
the column loop stopped the fill. -/
def fillContiguousRows (startY endY startX : Int) (leftPadding rightPadding : Nat)
    (xs : List Int) (ys : List Int) (st : EngineState) (colors : List Color) :
    EngineState × List Color :=
  match ys with
  | [] => (st, colors)
  | y :: rest =>
    let column := u16ofI32 startX
    let row := u16ofI32 (y / 2)
    let st := { st with commands := st.commands ++ [Command.moveTo column row] }
    let colors := advanceBy colors leftPadding
    match fillContiguousCols startY endY y row xs st colors with
    | (st, colors, true) =>
      fillContiguousRows startY endY startX leftPadding rightPadding xs rest st
        (advanceBy colors rightPadding)
    | (st, colors, false) => (st, colors)

/-- Model of `DrawTarget::fill_contiguous` (src/src/lib.rs lines 182-273)
after the resize: clamp the area to the bounding box, compute the
paddings, drop the leading skip, and run the row loop; when either the
area or its clamped intersection is zero-sized, return at once without
touching the sequence.  Returns the final state and the unconsumed
remainder of the color sequence. -/
def fillContiguous (width height : Nat) (area : Rectangle) (st : EngineState)
    (colors : List Color) : EngineState × List Color :=
  let clamped := (boundingBox width height).intersection area
  match area.bottomRight, clamped.bottomRight with
  | some abr, some cbr =>
    let p := fillPaddings area clamped abr cbr
    let colors := advanceBy colors (fillSkipCount area p.2.2)
    fillContiguousRows clamped.topLeft.y cbr.y clamped.topLeft.x p.1 p.2.1
      clamped.columns clamped.rows st colors
  | _, _ => (st, colors)

/-- The list `[s, s+1, ..., e-1]` of indices of a half-open range. -/
def natRange (s e : Nat) : List Nat :=
  (List.range (e - s)).map fun i => s + i

/-- Overwrite every cell of one buffer row whose column is in `cols`. -/
def fillCellsRow (buffer : Buffer) (row : Nat) (cols : List Nat) (cell : Color × Color) :
    Buffer :=
  cols.foldl (fun b c => setCell b row c cell) buffer

/-- Overwrite every cell in the row/column grid `rows x cols`, the buffer
effect of the slice fill in `fill_solid_aligned`. -/
def fillCellsRect (buffer : Buffer) (rows cols : List Nat) (cell : Color × Color) :
    Buffer :=
  rows.foldl (fun b r => fillCellsRow b r cols cell) buffer

/-- Model of `TerminalDisplay::fill_solid_aligned` (src/src/lib.rs lines
105-139): overwrite both halves of every cell in
`[rowStart, rowEnd) x [colStart, colEnd)` with `color`, then queue one
color-set command (a foreground reset for the foreground sentinel,
otherwise a background set) followed, for each row, by a cursor move and
one glyph per column. -/
def fillSolidAligned (colStart colEnd rowStart rowEnd : Nat) (color : Color)
    (st : EngineState) : EngineState :=
  let colorCmd :=
    if color = Color.FgColor then Command.setForeground CrosstermColor.Reset
    else Command.setBackground color.toCrosstermColor
  let glyph := if color = Color.FgColor then Glyph.full else Glyph.space
  let rowCmds := (natRange rowStart rowEnd).flatMap fun r =>
    Command.moveTo colStart r :: List.replicate (colEnd - colStart) (Command.writeGlyph glyph)
  { st with
      buffer := fillCellsRect st.buffer (natRange rowStart rowEnd) (natRange colStart colEnd)
        (color, color),
      commands := st.commands ++ [colorCmd] ++ rowCmds,
      accesses := st.accesses ++
        ((natRange rowStart rowEnd).flatMap fun r => (natRange colStart colEnd).map fun c => (r, c)) }

/-- Model of the two partial boundary-row loops of `fill_solid`
(src/src/lib.rs lines 292-304 and 322-333): for each column of the
clamped span, merge `color` into one half of the cell (`isTop = false`
for the leading odd-top-edge row, `isTop = true` for the trailing
even-bottom-edge row) and queue the cell's glyph. -/
def fillSolidPartial (row : Nat) (cols : List Nat) (isTop : Bool) (color : Color)
    (st : EngineState) : EngineState :=
  match cols with
  | [] => st
  | c :: rest =>
    let cell := updateHalf (getCell st.buffer row c) isTop color
    let st := { st with buffer := setCell st.buffer row c cell,
                        commands := st.commands ++ writeCell cell.1 cell.2,
                        accesses := st.accesses ++ [(row, c)] }
    fillSolidPartial row rest isTop color st

/-- Model of `DrawTarget::fill_solid` (src/src/lib.rs lines 275-336) after
the resize: clamp the area; if the clamped area is zero-sized do nothing;
otherwise draw the leading partial row when the top edge is an odd pixel
row (bottom halves only), bulk-fill the aligned interior rows, and draw
the trailing partial row when the bottom edge is an even pixel row (top
halves only).  All divisions and parities are taken on clamped, hence
non-negative, coordinates, where Lean and Rust agree. -/
def fillSolid (width height : Nat) (area : Rectangle) (color : Color) (st : EngineState) :
    EngineState :=
  let clamped := (boundingBox width height).intersection area
  match clamped.bottomRight with
  | none => st
  | some br =>
    let tl := clamped.topLeft
    let startColumn := u16ofI32 tl.x
    let endColumn := startColumn + clamped.size.width
    let st :=
      if tl.y % 2 = 1 then
        let row := (tl.y / 2).toNat
        let st := { st with commands := st.commands ++ [Command.moveTo startColumn row] }
        fillSolidPartial row (natRange startColumn endColumn) false color st
      else st
    let rowStart := (tl.y / 2).toNat + (if tl.y % 2 = 1 then 1 else 0)
    let rowEnd := (br.y / 2).toNat + 1 - (if br.y % 2 = 0 then 1 else 0)
    let st := fillSolidAligned startColumn endColumn rowStart rowEnd color st
    if br.y % 2 = 0 then
      let row := (br.y / 2).toNat
      let st := { st with commands := st.commands ++ [Command.moveTo startColumn row] }
      fillSolidPartial row (natRange startColumn endColumn) true color st
    else st

/-- Model of `DrawTarget::clear` (src/src/lib.rs lines 338-341) after the
resize: bulk-fill the whole terminal. -/
def clear (width height : Nat) (color : Color) (st : EngineState) : EngineState :=
  fillSolidAligned 0 width 0 height color st

theorem wrap32_eq_self {n : Int} (h1 : -(2 ^ 31) ≤ n) (h2 : n < 2 ^ 31) :
    wrap32 n = n := by
  unfold wrap32
  rw [Int.emod_eq_of_lt (by omega) (by omega)]
  omega

theorem wrap32_lt (n : Int) : wrap32 n < 2 ^ 31 := by
  unfold wrap32
  have := Int.emod_lt_of_pos (n + 2 ^ 31) (b := 2 ^ 32) (by norm_num)
  omega

theorem wrap32_le (n : Int) : -(2 ^ 31) ≤ wrap32 n := by
  unfold wrap32
  have := Int.emod_nonneg (n + 2 ^ 31) (b := 2 ^ 32) (by norm_num)
  omega

theorem u16ofI32_eq_toNat {v : Int} (h1 : 0 ≤ v) (h2 : v < 2 ^ 16) :
    u16ofI32 v = v.toNat := by
  unfold u16ofI32
  rw [Int.emod_eq_of_lt h1 h2]

theorem boundingBox_bottomRight {w h : Nat} (hw : w < 2 ^ 16) (hh : h < 2 ^ 16)
    (hw0 : 0 < w) (hh0 : 0 < h) :
    (boundingBox w h).bottomRight = some ⟨(w : Int) - 1, 2 * (h : Int) - 1⟩ := by
  simp only [boundingBox, size, Rectangle.bottomRight]
  rw [if_pos (by constructor <;> simp <;> omega)]
  have e1 : (0 : Int) + (w : Int) - 1 = (w : Int) - 1 := by ring
  have e2 : (0 : Int) + ((2 * h : Nat) : Int) - 1 = 2 * (h : Int) - 1 := by push_cast; ring
  rw [e1, e2, wrap32_eq_self (by omega) (by omega), wrap32_eq_self (by omega) (by omega)]

theorem clamped_spec {w h : Nat} {area : Rectangle} {cbr : Point}
    (hw : w < 2 ^ 16) (hh : h < 2 ^ 16)
    (hcbr : ((boundingBox w h).intersection area).bottomRight = some cbr) :
    ∃ abr, area.bottomRight = some abr ∧
      ((boundingBox w h).intersection area).topLeft =
        ⟨max 0 area.topLeft.x, max 0 area.topLeft.y⟩ ∧
      cbr = ⟨min ((w : Int) - 1) abr.x, min (2 * (h : Int) - 1) abr.y⟩ ∧
      ((boundingBox w h).intersection area).size =
        ⟨(cbr.x - max 0 area.topLeft.x + 1).toNat, (cbr.y - max 0 area.topLeft.y + 1).toNat⟩ ∧
      max 0 area.topLeft.x ≤ cbr.x ∧ max 0 area.topLeft.y ≤ cbr.y := by
  rcases hbb : (boundingBox w h).bottomRight with _ | bbr
  · unfold Rectangle.intersection at hcbr
    rw [hbb] at hcbr
    simp [Rectangle.zero, Rectangle.bottomRight] at hcbr
  · have hw0 : 0 < w := by
      by_contra h0
      simp only [boundingBox, size, Rectangle.bottomRight] at hbb
      rw [if_neg (by simp; omega)] at hbb
      exact Option.noConfusion hbb
    have hh0 : 0 < h := by
      by_contra h0
      simp only [boundingBox, size, Rectangle.bottomRight] at hbb
      rw [if_neg (by simp; omega)] at hbb
      exact Option.noConfusion hbb
    have hbb2 := boundingBox_bottomRight hw hh hw0 hh0
    rcases habr : area.bottomRight with _ | abr
    · unfold Rectangle.intersection at hcbr
      rw [hbb2, habr] at hcbr
      simp [Rectangle.zero, Rectangle.bottomRight] at hcbr
    · refine ⟨abr, rfl, ?_⟩
      unfold Rectangle.intersection at hcbr ⊢
      rw [hbb2, habr] at hcbr ⊢
      simp only [boundingBox] at hcbr ⊢
      set Mx := max (0 : Int) area.topLeft.x with hMxdef
      set My := max (0 : Int) area.topLeft.y with hMydef
      set mx := min ((w : Int) - 1) abr.x with hmxdef
      set my := min (2 * (h : Int) - 1) abr.y with hmydef
      have hMx0 : (0 : Int) ≤ Mx := by rw [hMxdef]; exact le_max_left _ _
      have hMy0 : (0 : Int) ≤ My := by rw [hMydef]; exact le_max_left _ _
      have hmxw : mx ≤ (w : Int) - 1 := by rw [hmxdef]; exact min_le_left _ _
      have hmyh : my ≤ 2 * (h : Int) - 1 := by rw [hmydef]; exact min_le_left _ _
      by_cases hov : Mx ≤ mx ∧ My ≤ my
      · rw [if_pos hov] at hcbr ⊢
        have hx := hov.1
        have hy := hov.2
        unfold Rectangle.bottomRight at hcbr
        rw [if_pos ⟨by dsimp only; omega, by dsimp only; omega⟩] at hcbr
        dsimp only at hcbr
        have ex : Mx + ((mx - Mx + 1).toNat : Int) - 1 = mx := by omega
        have ey : My + ((my - My + 1).toNat : Int) - 1 = my := by omega
        rw [ex, ey] at hcbr
        rw [wrap32_eq_self (by omega) (by omega), wrap32_eq_self (by omega) (by omega)]
          at hcbr
        injection hcbr with hcbr
        subst hcbr
        exact ⟨rfl, rfl, rfl, hx, hy⟩
      · rw [if_neg hov] at hcbr
        simp [Rectangle.zero, Rectangle.bottomRight] at hcbr

theorem clamped_bounds {w h : Nat} {area : Rectangle} {cbr : Point}
    (hw : w < 2 ^ 16) (hh : h < 2 ^ 16)
    (hcbr : ((boundingBox w h).intersection area).bottomRight = some cbr) :
    0 ≤ ((boundingBox w h).intersection area).topLeft.x ∧
    0 ≤ ((boundingBox w h).intersection area).topLeft.y ∧
    0 < ((boundingBox w h).intersection area).size.width ∧
    0 < ((boundingBox w h).intersection area).size.height ∧
    ((boundingBox w h).intersection area).topLeft.x +
      ((boundingBox w h).intersection area).size.width ≤ (w : Int) ∧
    ((boundingBox w h).intersection area).topLeft.y +
      ((boundingBox w h).intersection area).size.height ≤ 2 * (h : Int) ∧
    cbr.x = ((boundingBox w h).intersection area).topLeft.x +
      ((boundingBox w h).intersection area).size.width - 1 ∧
    cbr.y = ((boundingBox w h).intersection area).topLeft.y +
      ((boundingBox w h).intersection area).size.height - 1 := by
  obtain ⟨abr, -, htl, hcbr2, hsz, hovx, hovy⟩ := clamped_spec hw hh hcbr
  rw [htl, hsz]
  dsimp only
  set Mx := max (0 : Int) area.topLeft.x with hMxdef
  set My := max (0 : Int) area.topLeft.y with hMydef
  have hMx0 : (0 : Int) ≤ Mx := by rw [hMxdef]; exact le_max_left _ _
  have hMy0 : (0 : Int) ≤ My := by rw [hMydef]; exact le_max_left _ _
  have hbx : cbr.x ≤ (w : Int) - 1 := by rw [hcbr2]; exact min_le_left _ _
  have hby : cbr.y ≤ 2 * (h : Int) - 1 := by rw [hcbr2]; exact min_le_left _ _
  refine ⟨hMx0, hMy0, by omega, by omega, by omega, by omega, by omega, by omega⟩

theorem getD_set {α : Type} (l : List α) (i j : Nat) (a d : α) :
    (l.set i a).getD j d = if i = j ∧ i < l.length then a else l.getD j d := by
  by_cases h1 : i = j
  · subst h1
    by_cases h2 : i < l.length
    · rw [if_pos ⟨rfl, h2⟩, List.getD_eq_getElem?_getD, List.getElem?_set_self h2]
      rfl
    · rw [if_neg (fun hc => h2 hc.2), List.set_eq_of_length_le (by omega)]
  · rw [if_neg (fun hc => h1 hc.1), List.getD_eq_getElem?_getD, List.getElem?_set_ne h1,
      List.getD_eq_getElem?_getD]

theorem getD_setCell (b : Buffer) (r c : Nat) (v : Color × Color) (r2 : Nat) :
    (setCell b r c v).getD r2 [] =
      if r = r2 ∧ r < b.length then (b.getD r []).set c v else b.getD r2 [] := by
  unfold setCell
  rw [getD_set]

theorem setCell_length (b : Buffer) (r c : Nat) (v : Color × Color) :
    (setCell b r c v).length = b.length := by
  unfold setCell
  exact List.length_set ..

theorem setCell_row_length (b : Buffer) (r c : Nat) (v : Color × Color) (r2 : Nat) :
    ((setCell b r c v).getD r2 []).length = (b.getD r2 []).length := by
  rw [getD_setCell]
  split
  · next hcond => rw [List.length_set, hcond.1]
  · rfl

theorem getCell_setCell_same {b : Buffer} {r c : Nat} (v : Color × Color)
    (hr : r < b.length) (hc : c < (b.getD r []).length) :
    getCell (setCell b r c v) r c = v := by
  unfold getCell
  rw [getD_setCell, if_pos ⟨rfl, hr⟩, getD_set, if_pos ⟨rfl, hc⟩]

theorem getCell_setCell_ne {b : Buffer} {r c r2 c2 : Nat} (v : Color × Color)
    (hne : r ≠ r2 ∨ c ≠ c2) :
    getCell (setCell b r c v) r2 c2 = getCell b r2 c2 := by
  unfold getCell
  rw [getD_setCell]
  split
  · next hcond =>
    have hc : c ≠ c2 := by
      rcases hne with h | h
      · exact absurd hcond.1 h
      · exact h
    rw [getD_set, if_neg (by tauto), hcond.1]
  · rfl

theorem updateHalf_idem (cell : Color × Color) (isTop : Bool) (color : Color) :
    updateHalf (updateHalf cell isTop color) isTop color = updateHalf cell isTop color := by
  unfold updateHalf
  cases isTop <;> simp

theorem mem_natRange {s e c : Nat} : c ∈ natRange s e ↔ s ≤ c ∧ c < e := by
  unfold natRange
  simp only [List.mem_map, List.mem_range]
  constructor
  · rintro ⟨i, hi, rfl⟩
    omega
  · rintro ⟨h1, h2⟩
    exact ⟨c - s, by omega, by omega⟩

theorem fillCellsRow_cons (b : Buffer) (row c : Nat) (rest : List Nat) (v : Color × Color) :
    fillCellsRow b row (c :: rest) v = fillCellsRow (setCell b row c v) row rest v := rfl

theorem fillCellsRect_cons (b : Buffer) (r : Nat) (rest cols : List Nat) (v : Color × Color) :
    fillCellsRect b (r :: rest) cols v = fillCellsRect (fillCellsRow b r cols v) rest cols v := rfl

theorem fillCellsRow_length (b : Buffer) (row : Nat) (cols : List Nat) (v : Color × Color) :
    (fillCellsRow b row cols v).length = b.length := by
  induction cols generalizing b with
  | nil => rfl
  | cons c rest ih => rw [fillCellsRow_cons, ih, setCell_length]

theorem fillCellsRow_row_length (b : Buffer) (row : Nat) (cols : List Nat) (v : Color × Color)
    (r2 : Nat) : ((fillCellsRow b row cols v).getD r2 []).length = (b.getD r2 []).length := by
  induction cols generalizing b with
  | nil => rfl
  | cons c rest ih => rw [fillCellsRow_cons, ih, setCell_row_length]

theorem fillCellsRow_getCell_notmem {b : Buffer} {row : Nat} {cols : List Nat}
    {v : Color × Color} {r2 c2 : Nat} (hne : ¬(row = r2 ∧ c2 ∈ cols)) :
    getCell (fillCellsRow b row cols v) r2 c2 = getCell b r2 c2 := by
  induction cols generalizing b with
  | nil => rfl
  | cons c rest ih =>
    rw [fillCellsRow_cons, ih (by simp [List.mem_cons] at hne ⊢; tauto),
      getCell_setCell_ne v (by simp [List.mem_cons] at hne; tauto)]

theorem fillCellsRow_getCell_mem {b : Buffer} {row : Nat} {cols : List Nat}
    {v : Color × Color} {c2 : Nat} (hr2 : row < b.length)
    (hc2 : c2 < (b.getD row []).length) (hmem : c2 ∈ cols) :
    getCell (fillCellsRow b row cols v) row c2 = v := by
  induction cols generalizing b with
  | nil => exact absurd hmem (List.not_mem_nil c2)
  | cons c rest ih =>
    rw [fillCellsRow_cons]
    by_cases h2 : c2 ∈ rest
    · exact ih (by rw [setCell_length]; exact hr2) (by rw [setCell_row_length]; exact hc2) h2
    · have hc : c2 = c := by
        rcases List.mem_cons.1 hmem with h | h
        · exact h
        · exact absurd h h2
      subst hc
      rw [fillCellsRow_getCell_notmem (by tauto), getCell_setCell_same v hr2 hc2]

theorem fillCellsRect_length (b : Buffer) (rows cols : List Nat) (v : Color × Color) :
    (fillCellsRect b rows cols v).length = b.length := by
  induction rows generalizing b with
  | nil => rfl
  | cons r rest ih => rw [fillCellsRect_cons, ih, fillCellsRow_length]

theorem fillCellsRect_getCell_notmem {b : Buffer} {rows cols : List Nat}
    {v : Color × Color} {r2 c2 : Nat} (hne : ¬(r2 ∈ rows ∧ c2 ∈ cols)) :
    getCell (fillCellsRect b rows cols v) r2 c2 = getCell b r2 c2 := by
  induction rows generalizing b with
  | nil => rfl
  | cons r rest ih =>
    rw [fillCellsRect_cons, ih (by simp [List.mem_cons] at hne ⊢; tauto),
      fillCellsRow_getCell_notmem (by simp [List.mem_cons] at hne; tauto)]

theorem fillCellsRect_getCell_mem {b : Buffer} {rows cols : List Nat}
    {v : Color × Color} {r2 c2 : Nat} (hr2 : r2 < b.length)
    (hc2 : c2 < (b.getD r2 []).length) (hrmem : r2 ∈ rows) (hcmem : c2 ∈ cols) :
    getCell (fillCellsRect b rows cols v) r2 c2 = v := by
  induction rows generalizing b with
  | nil => exact absurd hrmem (List.not_mem_nil r2)
  | cons r rest ih =>
    rw [fillCellsRect_cons]
    by_cases h2 : r2 ∈ rest
    · exact ih (by rw [fillCellsRow_length]; exact hr2)
        (by rw [fillCellsRow_row_length]; exact hc2) h2
    · have hr : r2 = r := by
        rcases List.mem_cons.1 hrmem with h | h
        · exact h
        · exact absurd h h2
      subst hr
      rw [fillCellsRect_getCell_notmem (by tauto),
        fillCellsRow_getCell_mem hr2 hc2 hcmem]

theorem countP_colorSet_rowCmds (rs re cs n : Nat) (g : Glyph) :
    ((natRange rs re).flatMap fun r =>
      Command.moveTo cs r :: List.replicate n (Command.writeGlyph g)).countP
        Command.isColorSet = 0 := by
  rw [List.countP_eq_zero]
  intro cmd hcmd
  rw [List.mem_flatMap] at hcmd
  obtain ⟨r, -, hmem⟩ := hcmd
  rcases List.mem_cons.1 hmem with rfl | hmem2
  · simp [Command.isColorSet]
  · rw [List.eq_of_mem_replicate hmem2]
    simp [Command.isColorSet]

/-- A concrete 2 x 2 terminal state with a default buffer, used by the
concrete witnesses and counterexamples below. -/
def exState : EngineState :=
  ⟨List.replicate 2 (List.replicate 2 defaultCell), [], []⟩

/-- C3: the glyph and color commands emitted by `write_cell` for a
resulting `(top, bottom)` pair follow the four precedence rules in order:
both-background gives a single background reset and a space; both-
foreground gives a single foreground reset and a solid block; otherwise
if top is not the foreground sentinel and bottom is not the background
sentinel, top becomes the background and bottom the foreground under a
lower-half-block; otherwise bottom becomes the background and top the
foreground under an upper-half-block. -/
theorem writeCell_precedence (t b : Color) :
    (t = Color.BgColor ∧ b = Color.BgColor →
      writeCell t b = [.setBackground .Reset, .writeGlyph .space]) ∧
    (¬(t = Color.BgColor ∧ b = Color.BgColor) →
      t = Color.FgColor ∧ b = Color.FgColor →
      writeCell t b = [.setForeground .Reset, .writeGlyph .full]) ∧
    (¬(t = Color.BgColor ∧ b = Color.BgColor) →
      ¬(t = Color.FgColor ∧ b = Color.FgColor) →
      t ≠ Color.FgColor → b ≠ Color.BgColor →
      writeCell t b = [.setBackground t.toCrosstermColor,
        .setForeground b.toCrosstermColor, .writeGlyph .lower]) ∧
    (¬(t = Color.BgColor ∧ b = Color.BgColor) →
      ¬(t = Color.FgColor ∧ b = Color.FgColor) →
      ¬(t ≠ Color.FgColor ∧ b ≠ Color.BgColor) →
      writeCell t b = [.setBackground b.toCrosstermColor,
        .setForeground t.toCrosstermColor, .writeGlyph .upper]) := by
  unfold writeCell
  refine ⟨?_, ?_, ?_, ?_⟩
  · rintro ⟨rfl, rfl⟩
    rw [if_pos ⟨rfl, rfl⟩]
  · rintro h1 ⟨rfl, rfl⟩
    rw [if_neg h1, if_pos ⟨rfl, rfl⟩]
  · intro h1 h2 h3 h4
    rw [if_neg h1, if_neg h2, if_pos ⟨h3, h4⟩]
  · intro h1 h2 h3
    rw [if_neg h1, if_neg h2, if_neg h3]

/-- Witness for C3 at a concrete cell: a fully-background cell emits a
single background reset and a space glyph. -/
theorem writeCell_precedence_witness :
    writeCell Color.BgColor Color.BgColor =
      [.setBackground .Reset, .writeGlyph .space] :=
  (writeCell_precedence Color.BgColor Color.BgColor).1 ⟨rfl, rfl⟩

/-- C6: when the intersection of `area` with the terminal bounds is empty
(the clamped rectangle is zero-sized, covering both an entirely
off-screen area and a zero-sized one), `fill_contiguous` returns success
having consumed no colors, emitted no commands, and changed no cell. -/
theorem fillContiguous_empty_intersection (w h : Nat) (area : Rectangle)
    (st : EngineState) (colors : List Color)
    (hempty : ((boundingBox w h).intersection area).size.width = 0 ∨
      ((boundingBox w h).intersection area).size.height = 0) :
    fillContiguous w h area st colors = (st, colors) := by
  have hbr : ((boundingBox w h).intersection area).bottomRight = none := by
    unfold Rectangle.bottomRight
    rw [if_neg (by tauto)]
  unfold fillContiguous
  rcases habr : area.bottomRight with _ | abr <;> simp only [habr, hbr]

/-- Witness for C6: an area entirely below and right of a 2 x 2 terminal
is a no-op that consumes nothing. -/
theorem fillContiguous_empty_intersection_witness :
    fillContiguous 2 2 ⟨⟨10, 10⟩, ⟨2, 2⟩⟩ exState [Color.Red] = (exState, [Color.Red]) :=
  fillContiguous_empty_intersection 2 2 ⟨⟨10, 10⟩, ⟨2, 2⟩⟩ exState [Color.Red] (by decide)

/-- Counterexample to C8 as stated: `clear` on a 2-row terminal performs
an aligned fill over r = 2 output rows but its emitted command sequence
contains exactly one color-set command, not r = 2 of them. -/
theorem fillSolidAligned_counterexample :
    (natRange 0 2).length = 2 ∧
    (clear 2 2 Color.Black exState).commands.countP Command.isColorSet = 1 ∧
    (1 : Nat) ≠ 2 := by
  refine ⟨by decide, by decide, by decide⟩

/-- C8 as amended: the aligned bulk fill over the row/column ranges
`[rowStart, rowEnd) x [colStart, colEnd)` overwrites both halves of every
interior cell with the fill color (leaving all other cells unchanged),
and the whole call appends exactly one color-set command — one per call,
not one per output row nor one per cell; `clear` is exactly this bulk
operation applied to the full terminal. -/
theorem fillSolidAligned_amended (w h colStart colEnd rowStart rowEnd : Nat)
    (color : Color) (st : EngineState)
    (hwf : bufferWF st.buffer w h) (hce : colEnd ≤ w) (hre : rowEnd ≤ h) :
    (∀ r2 c2, rowStart ≤ r2 → r2 < rowEnd → colStart ≤ c2 → c2 < colEnd →
      getCell (fillSolidAligned colStart colEnd rowStart rowEnd color st).buffer r2 c2 =
        (color, color)) ∧
    (∀ r2 c2, ¬(rowStart ≤ r2 ∧ r2 < rowEnd ∧ colStart ≤ c2 ∧ c2 < colEnd) →
      getCell (fillSolidAligned colStart colEnd rowStart rowEnd color st).buffer r2 c2 =
        getCell st.buffer r2 c2) ∧
    (fillSolidAligned colStart colEnd rowStart rowEnd color st).commands.countP
        Command.isColorSet = st.commands.countP Command.isColorSet + 1 ∧
    clear w h color st = fillSolidAligned 0 w 0 h color st := by
  obtain ⟨hlen, hrows⟩ := hwf
  refine ⟨?_, ?_, ?_, rfl⟩
  · intro r2 c2 h1 h2 h3 h4
    unfold fillSolidAligned
    dsimp only
    have hr2len : r2 < st.buffer.length := by omega
    have hrow : (st.buffer.getD r2 []).length = w := by
      rw [List.getD_eq_getElem?_getD]
      cases hb : st.buffer[r2]? with
      | none =>
        have := List.getElem?_eq_none_iff.1 hb
        omega
      | some row =>
        exact hrows row (List.getElem?_mem hb)
    exact fillCellsRect_getCell_mem hr2len (by omega)
      (mem_natRange.2 ⟨h1, h2⟩) (mem_natRange.2 ⟨h3, h4⟩)
  · intro r2 c2 hne
    unfold fillSolidAligned
    dsimp only
    exact fillCellsRect_getCell_notmem (by
      rw [mem_natRange, mem_natRange]
      tauto)
  · unfold fillSolidAligned
    dsimp only
    rw [List.countP_append, List.countP_append, countP_colorSet_rowCmds]
    split <;> simp [Command.isColorSet]

/-- Witness for C8 as amended, on a concrete 2 x 2 clear: the interior
cell (0, 0) holds the fill color in both halves and exactly one color-set
command is emitted. -/
theorem fillSolidAligned_amended_witness :
    getCell (fillSolidAligned 0 2 0 2 Color.Black exState).buffer 0 0 =
      (Color.Black, Color.Black) ∧
    (fillSolidAligned 0 2 0 2 Color.Black exState).commands.countP
      Command.isColorSet = 0 + 1 := by
  have h := fillSolidAligned_amended 2 2 0 2 0 2 Color.Black exState
    ⟨by decide, by decide⟩ (by decide) (by decide)
  exact ⟨h.1 0 0 (by decide) (by decide) (by decide) (by decide), h.2.2.1⟩

theorem bufferWF_row_length {b : Buffer} {w h : Nat} (hwf : bufferWF b w h) {r : Nat}
    (hr : r < h) : (b.getD r []).length = w := by
  obtain ⟨hlen, hrows⟩ := hwf
  rw [List.getD_eq_getElem?_getD]
  cases hb : b[r]? with
  | none =>
    have := List.getElem?_eq_none_iff.1 hb
    omega
  | some row => exact hrows row (List.getElem?_mem hb)

theorem fillSolidPartial_cons (row c : Nat) (rest : List Nat) (isTop : Bool) (color : Color)
    (st : EngineState) :
    fillSolidPartial row (c :: rest) isTop color st =
      fillSolidPartial row rest isTop color
        { st with
            buffer := setCell st.buffer row c
              (updateHalf (getCell st.buffer row c) isTop color),
            commands := st.commands ++
              writeCell (updateHalf (getCell st.buffer row c) isTop color).1
                (updateHalf (getCell st.buffer row c) isTop color).2,
            accesses := st.accesses ++ [(row, c)] } := rfl

theorem fillSolidPartial_length (row : Nat) (cols : List Nat) (isTop : Bool) (color : Color)
    (st : EngineState) :
    (fillSolidPartial row cols isTop color st).buffer.length = st.buffer.length := by
  induction cols generalizing st with
  | nil => rfl
  | cons c rest ih => rw [fillSolidPartial_cons, ih]; exact setCell_length ..

theorem fillSolidPartial_row_length (row : Nat) (cols : List Nat) (isTop : Bool)
    (color : Color) (st : EngineState) (r2 : Nat) :
    ((fillSolidPartial row cols isTop color st).buffer.getD r2 []).length =
      (st.buffer.getD r2 []).length := by
  induction cols generalizing st with
  | nil => rfl
  | cons c rest ih => rw [fillSolidPartial_cons, ih]; exact setCell_row_length ..

theorem fillSolidPartial_getCell_notmem {row : Nat} {cols : List Nat} {isTop : Bool}
    {color : Color} {st : EngineState} {r2 c2 : Nat} (hne : ¬(row = r2 ∧ c2 ∈ cols)) :
    getCell (fillSolidPartial row cols isTop color st).buffer r2 c2 =
      getCell st.buffer r2 c2 := by
  induction cols generalizing st with
  | nil => rfl
  | cons c rest ih =>
    rw [fillSolidPartial_cons, ih (by simp [List.mem_cons] at hne ⊢; tauto)]
    exact getCell_setCell_ne _ (by simp [List.mem_cons] at hne; tauto)

theorem fillSolidPartial_getCell_mem {row : Nat} {cols : List Nat} {isTop : Bool}
    {color : Color} {st : EngineState} {c2 : Nat}
    (hr2 : row < st.buffer.length) (hc2 : c2 < (st.buffer.getD row []).length)
    (hmem : c2 ∈ cols) :
    getCell (fillSolidPartial row cols isTop color st).buffer row c2 =
      updateHalf (getCell st.buffer row c2) isTop color := by
  induction cols generalizing st with
  | nil => exact absurd hmem (List.not_mem_nil c2)
  | cons c rest ih =>
    rw [fillSolidPartial_cons]
    by_cases h2 : c2 ∈ rest
    · rw [ih (by dsimp only; rw [setCell_length]; exact hr2)
        (by dsimp only; rw [setCell_row_length]; exact hc2) h2]
      dsimp only
      by_cases h3 : c = c2
      · subst h3
        rw [getCell_setCell_same _ hr2 hc2, updateHalf_idem]
      · rw [getCell_setCell_ne _ (Or.inr h3)]
    · have hc : c2 = c := by
        rcases List.mem_cons.1 hmem with hx | hx
        · exact hx
        · exact absurd hx h2
      subst hc
      rw [fillSolidPartial_getCell_notmem (by tauto)]
      dsimp only
      rw [getCell_setCell_same _ hr2 hc2]

theorem fillCellsRect_row_length (b : Buffer) (rows cols : List Nat) (v : Color × Color)
    (r2 : Nat) : ((fillCellsRect b rows cols v).getD r2 []).length = (b.getD r2 []).length := by
  induction rows generalizing b with
  | nil => rfl
  | cons r rest ih => rw [fillCellsRect_cons, ih, fillCellsRow_row_length]

/-- A concrete 1-column, 2-row terminal state with distinct half colors in
every cell, used to exhibit boundary-row behaviour. -/
def exState7 : EngineState :=
  ⟨[[(Color.Red, Color.Green)], [(Color.Yellow, Color.White)]], [], []⟩

/-- Counterexample to C7 as stated: on a 1 x 2 terminal filling the area
from pixel row 1 to pixel row 2 with Blue, the visible top edge lands on
the odd pixel row 1, and the claim says that boundary cell row is a
top-half-only write preserving the existing bottom half; the code instead
preserves the top half (Red) and overwrites the bottom half (Green
becomes Blue). -/
theorem fillSolid_boundary_counterexample :
    ((boundingBox 1 2).intersection ⟨⟨0, 1⟩, ⟨1, 2⟩⟩).topLeft.y % 2 = 1 ∧
    getCell exState7.buffer 0 0 = (Color.Red, Color.Green) ∧
    getCell (fillSolid 1 2 ⟨⟨0, 1⟩, ⟨1, 2⟩⟩ Color.Blue exState7).buffer 0 0 =
      (Color.Red, Color.Blue) ∧
    Color.Blue ≠ Color.Green := by
  refine ⟨by decide, by decide, by decide, by decide⟩

/-- C7 as amended: in `fill_solid`, when the visible area's top edge lands
on an odd pixel row, that boundary cell row receives a partial
bottom-half-only write preserving each cell's existing top half; and when
the visible bottom edge lands on an even pixel row, that boundary cell
row receives a partial top-half-only write preserving each cell's
existing bottom half. -/
theorem fillSolid_boundary_amended (w h : Nat) (area : Rectangle) (color : Color)
    (st : EngineState) (hw : w < 2 ^ 16) (hh : h < 2 ^ 16)
    (hwf : bufferWF st.buffer w h) (br : Point)
    (hbr : ((boundingBox w h).intersection area).bottomRight = some br) :
    (((boundingBox w h).intersection area).topLeft.y % 2 = 1 →
      ∀ c2, ((boundingBox w h).intersection area).topLeft.x.toNat ≤ c2 →
        c2 < ((boundingBox w h).intersection area).topLeft.x.toNat +
          ((boundingBox w h).intersection area).size.width →
        getCell (fillSolid w h area color st).buffer
            (((boundingBox w h).intersection area).topLeft.y / 2).toNat c2 =
          ((getCell st.buffer
              (((boundingBox w h).intersection area).topLeft.y / 2).toNat c2).1, color)) ∧
    (br.y % 2 = 0 →
      ∀ c2, ((boundingBox w h).intersection area).topLeft.x.toNat ≤ c2 →
        c2 < ((boundingBox w h).intersection area).topLeft.x.toNat +
          ((boundingBox w h).intersection area).size.width →
        getCell (fillSolid w h area color st).buffer (br.y / 2).toNat c2 =
          (color, (getCell st.buffer (br.y / 2).toNat c2).2)) := by
  obtain ⟨hx0, hy0, hwpos, hhpos, hxw, hyh, hbrx, hbry⟩ := clamped_bounds hw hh hbr
  unfold fillSolid
  dsimp only
  rw [hbr]
  dsimp only
  rw [u16ofI32_eq_toNat hx0 (by omega)]
  set tlx := ((boundingBox w h).intersection area).topLeft.x with htlxdef
  set tly := ((boundingBox w h).intersection area).topLeft.y with htlydef
  set cw := ((boundingBox w h).intersection area).size.width with hcwdef
  set ch := ((boundingBox w h).intersection area).size.height with hchdef
  have hr1lt : (tly / 2).toNat < h := by omega
  have hr2lt : (br.y / 2).toNat < h := by omega
  have hlen : st.buffer.length = h := hwf.1
  constructor
  · intro hodd c2 hc2a hc2b
    have hrow1 : (st.buffer.getD (tly / 2).toNat []).length = w :=
      bufferWF_row_length hwf hr1lt
    rw [if_pos hodd]
    split
    · next heven =>
      rw [fillSolidPartial_getCell_notmem (by
        intro hcon
        have h1 := hcon.1
        omega)]
      dsimp only
      unfold fillSolidAligned
      dsimp only
      rw [fillCellsRect_getCell_notmem (by
        intro hcon
        have h1 := hcon.1
        rw [mem_natRange] at h1
        omega)]
      rw [fillSolidPartial_getCell_mem
        (by dsimp only; omega)
        (by dsimp only; rw [hrow1]; omega)
        (mem_natRange.2 ⟨hc2a, hc2b⟩)]
      rfl
    · unfold fillSolidAligned
      dsimp only
      rw [fillCellsRect_getCell_notmem (by
        intro hcon
        have h1 := hcon.1
        rw [mem_natRange] at h1
        omega)]
      rw [fillSolidPartial_getCell_mem
        (by dsimp only; omega)
        (by dsimp only; rw [hrow1]; omega)
        (mem_natRange.2 ⟨hc2a, hc2b⟩)]
      rfl
  · intro heven c2 hc2a hc2b
    rw [if_pos heven]
    have hrow2pre : (st.buffer.getD (br.y / 2).toNat []).length = w :=
      bufferWF_row_length hwf hr2lt
    rw [fillSolidPartial_getCell_mem]
    rotate_left
    · dsimp only
      unfold fillSolidAligned
      dsimp only
      rw [fillCellsRect_length]
      split
      · rw [fillSolidPartial_length]
        dsimp only
        omega
      · omega
    · dsimp only
      unfold fillSolidAligned
      dsimp only
      rw [fillCellsRect_row_length]
      split
      · rw [fillSolidPartial_row_length]
        dsimp only
        rw [hrow2pre]
        omega
      · rw [hrow2pre]
        omega
    · exact mem_natRange.2 ⟨hc2a, hc2b⟩
    · dsimp only
      unfold fillSolidAligned
      dsimp only
      rw [fillCellsRect_getCell_notmem (by
        intro hcon
        have h1 := hcon.1
        rw [mem_natRange] at h1
        rw [if_pos heven] at h1
        omega)]
      split
      · next hodd =>
        rw [fillSolidPartial_getCell_notmem (by
          intro hcon
          have h1 := hcon.1
          omega)]
        rfl
      · rfl

/-- Witness for C7 as amended, on a 1 x 2 terminal filling pixel rows 1-2
with Blue: the odd-top-edge boundary cell keeps its top half and takes
Blue in its bottom half, and the even-bottom-edge boundary cell takes
Blue in its top half and keeps its bottom half. -/
theorem fillSolid_boundary_amended_witness :
    getCell (fillSolid 1 2 ⟨⟨0, 1⟩, ⟨1, 2⟩⟩ Color.Blue exState7).buffer 0 0 =
      ((getCell exState7.buffer 0 0).1, Color.Blue) ∧
    getCell (fillSolid 1 2 ⟨⟨0, 1⟩, ⟨1, 2⟩⟩ Color.Blue exState7).buffer 1 0 =
      (Color.Blue, (getCell exState7.buffer 1 0).2) := by
  have h := fillSolid_boundary_amended 1 2 ⟨⟨0, 1⟩, ⟨1, 2⟩⟩ Color.Blue exState7
    (by decide) (by decide) ⟨by decide, by decide⟩ ⟨0, 2⟩ (by decide)
  exact ⟨h.1 (by decide) 0 (by decide) (by decide), h.2 (by decide) 0 (by decide) (by decide)⟩

theorem contains_boundingBox {w h : Nat} (hw : w < 2 ^ 16) (hh : h < 2 ^ 16) (p : Point) :
    (boundingBox w h).contains p = true ↔
      0 ≤ p.x ∧ p.x < (w : Int) ∧ 0 ≤ p.y ∧ p.y < 2 * (h : Int) := by
  by_cases hpos : 0 < w ∧ 0 < h
  · unfold Rectangle.contains
    rw [boundingBox_bottomRight hw hh hpos.1 hpos.2]
    simp only [boundingBox, size, Bool.and_eq_true, decide_eq_true_eq]
    constructor
    · rintro ⟨⟨h1, h2⟩, h3, h4⟩
      exact ⟨h1, by omega, h2, by omega⟩
    · rintro ⟨h1, h2, h3, h4⟩
      exact ⟨⟨h1, h3⟩, by omega, by omega⟩
  · have hbr : (boundingBox w h).bottomRight = none := by
      unfold boundingBox Rectangle.bottomRight size
      rw [if_neg (by dsimp only; omega)]
    unfold Rectangle.contains
    rw [hbr]
    simp only [Bool.and_false, Bool.false_eq_true, false_iff]
    rintro ⟨h1, h2, h3, h4⟩
    omega

/-- C4: a pixel `(x, y)` handed to `draw_iter` that lies inside the
current bounding box is merged into cell row `y / 2`, column `x`, in the
top half when `y` is even and the bottom half when `y` is odd (with the
cursor move and glyph redraw queued); a pixel outside the bounding box,
including one with negative coordinates, is silently dropped with no
buffer change and no command emitted, and without any error. -/
theorem drawIter_pixel_mapping (w h : Nat) (x y : Int) (color : Color)
    (rest : List (Point × Color)) (st : EngineState)
    (hw : w < 2 ^ 16) (hh : h < 2 ^ 16) :
    ((0 ≤ x ∧ x < (w : Int) ∧ 0 ≤ y ∧ y < 2 * (h : Int)) →
      drawIter w h ((⟨x, y⟩, color) :: rest) st =
        drawIter w h rest
          { st with
              buffer := setCell st.buffer (y / 2).toNat x.toNat
                (updateHalf (getCell st.buffer (y / 2).toNat x.toNat)
                  (decide (y % 2 = 0)) color),
              commands := (st.commands ++ [Command.moveTo x.toNat (y / 2).toNat]) ++
                writeCell
                  (updateHalf (getCell st.buffer (y / 2).toNat x.toNat)
                    (decide (y % 2 = 0)) color).1
                  (updateHalf (getCell st.buffer (y / 2).toNat x.toNat)
                    (decide (y % 2 = 0)) color).2,
              accesses := st.accesses ++ [((y / 2).toNat, x.toNat)] }) ∧
    (¬(0 ≤ x ∧ x < (w : Int) ∧ 0 ≤ y ∧ y < 2 * (h : Int)) →
      drawIter w h ((⟨x, y⟩, color) :: rest) st = drawIter w h rest st) := by
  constructor
  · intro hin
    have hc : (boundingBox w h).contains ⟨x, y⟩ = true :=
      (contains_boundingBox hw hh ⟨x, y⟩).2 hin
    simp only [drawIter]
    rw [if_pos hc]
    dsimp only
    rw [u16ofI32_eq_toNat (by omega) (by omega),
      u16ofI32_eq_toNat (by omega) (by omega)]
  · intro hout
    have hc : ¬((boundingBox w h).contains ⟨x, y⟩ = true) := fun hc =>
      hout ((contains_boundingBox hw hh ⟨x, y⟩).1 hc)
    simp only [drawIter]
    rw [if_neg hc]

/-- Witness for C4 at the concrete pixel (1, 1) on a 2 x 2 terminal:
`y = 1` is odd, so the bottom half of cell (row 0, column 1) takes the
color; outside pixels such as (5, 5) are dropped. -/
theorem drawIter_pixel_mapping_witness :
    drawIter 2 2 [(⟨1, 1⟩, Color.Red)] exState =
      drawIter 2 2 []
        { exState with
            buffer := setCell exState.buffer 0 1
              (updateHalf (getCell exState.buffer 0 1) (decide ((1 : Int) % 2 = 0)) Color.Red),
            commands := (exState.commands ++ [Command.moveTo 1 0]) ++
              writeCell
                (updateHalf (getCell exState.buffer 0 1) (decide ((1 : Int) % 2 = 0)) Color.Red).1
                (updateHalf (getCell exState.buffer 0 1) (decide ((1 : Int) % 2 = 0)) Color.Red).2,
            accesses := exState.accesses ++ [(0, 1)] } ∧
    drawIter 2 2 [(⟨5, 5⟩, Color.Red)] exState = drawIter 2 2 [] exState := by
  constructor
  · exact (drawIter_pixel_mapping 2 2 1 1 Color.Red [] exState (by decide) (by decide)).1
      (by decide)
  · exact (drawIter_pixel_mapping 2 2 5 5 Color.Red [] exState (by decide) (by decide)).2
      (by decide)

theorem mem_rows {r : Rectangle} {y : Int} :
    y ∈ r.rows ↔ ∃ i : Nat, i < r.size.height ∧ y = r.topLeft.y + i := by
  unfold Rectangle.rows
  simp only [List.mem_map, List.mem_range]
  constructor
  · rintro ⟨i, hi, rfl⟩
    exact ⟨i, hi, rfl⟩
  · rintro ⟨i, hi, rfl⟩
    exact ⟨i, hi, rfl⟩

theorem mem_columns {r : Rectangle} {x : Int} :
    x ∈ r.columns ↔ ∃ j : Nat, j < r.size.width ∧ x = r.topLeft.x + j := by
  unfold Rectangle.columns
  simp only [List.mem_map, List.mem_range]
  constructor
  · rintro ⟨j, hj, rfl⟩
    exact ⟨j, hj, rfl⟩
  · rintro ⟨j, hj, rfl⟩
    exact ⟨j, hj, rfl⟩
theorem listResize_length {α : Type} (l : List α) (n : Nat) (v : α) :
    (listResize l n v).length = n := by
  unfold listResize
  rw [List.length_append, List.length_take, List.length_replicate]
  omega

theorem resizeBuffer_wf {b : Buffer} {w0 h0 : Nat} (hwf : bufferWF b w0 h0) (w h : Nat) :
    bufferWF (resizeBuffer b w h) w h := by
  obtain ⟨hlen, hrows⟩ := hwf
  unfold resizeBuffer
  set b1 := if (b.getD 0 []).length ≠ w then b.map (fun row => listResize row w defaultCell)
    else b with hb1
  have hb1rows : ∀ row ∈ b1, row.length = w := by
    rw [hb1]
    split
    · intro row hrow
      rw [List.mem_map] at hrow
      obtain ⟨r0, hr0, rfl⟩ := hrow
      exact listResize_length ..
    · next hcond =>
      push_neg at hcond
      intro row hrow
      have hrw := hrows row hrow
      have hb0 : (b.getD 0 []).length = w0 := by
        rw [List.getD_eq_getElem?_getD]
        cases hb2 : b[0]? with
        | none =>
          have h0 := List.getElem?_eq_none_iff.1 hb2
          have hnil : b = [] := by
            cases b with
            | nil => rfl
            | cons r rs => simp at h0
          rw [hnil] at hrow
          exact absurd hrow (List.not_mem_nil row)
        | some r => exact hrows r (List.getElem?_mem hb2)
      omega
  show bufferWF (if b1.length ≠ h then listResize b1 h (List.replicate w defaultCell) else b1) w h
  split
  · constructor
    · exact listResize_length ..
    · intro row hrow
      unfold listResize at hrow
      rcases List.mem_append.1 hrow with hmem | hmem
      · exact hb1rows row (List.mem_of_mem_take hmem)
      · rw [List.eq_of_mem_replicate hmem]
        exact List.length_replicate ..
  · next hcond =>
    push_neg at hcond
    exact ⟨hcond, hb1rows⟩

theorem drawIter_accesses {w h : Nat} (hw : w < 2 ^ 16) (hh : h < 2 ^ 16)
    {pixels : List (Point × Color)} {st : EngineState} {P : Nat × Nat → Prop}
    (hst : ∀ a ∈ st.accesses, P a)
    (hP : ∀ r c, r < h → c < w → P (r, c)) :
    ∀ a ∈ (drawIter w h pixels st).accesses, P a := by
  induction pixels generalizing st with
  | nil => exact hst
  | cons pc rest ih =>
    obtain ⟨point, color⟩ := pc
    simp only [drawIter]
    split
    · next hc =>
      apply ih
      intro a ha
      dsimp only at ha
      rcases List.mem_append.1 ha with hmem | hmem
      · exact hst a hmem
      · rw [List.mem_singleton] at hmem
        subst hmem
        obtain ⟨h1, h2, h3, h4⟩ := (contains_boundingBox hw hh point).1 hc
        rw [u16ofI32_eq_toNat (by omega) (by omega),
          u16ofI32_eq_toNat (by omega) (by omega)]
        exact hP _ _ (by omega) (by omega)
    · exact ih hst

theorem fillContiguousCols_accesses {startY endY y : Int} {row : Nat} {xs : List Int}
    {st : EngineState} {colors : List Color} {P : Nat × Nat → Prop}
    (hst : ∀ a ∈ st.accesses, P a) (hxs : ∀ x ∈ xs, P (row, u16ofI32 x)) :
    ∀ a ∈ (fillContiguousCols startY endY y row xs st colors).1.accesses, P a := by
  induction xs generalizing st colors with
  | nil => exact hst
  | cons x rest ih =>
    have hx := hxs x (List.mem_cons_self ..)
    have hrest : ∀ x2 ∈ rest, P (row, u16ofI32 x2) := fun x2 hx2 =>
      hxs x2 (List.mem_cons_of_mem _ hx2)
    have hext : ∀ a ∈ st.accesses ++ [(row, u16ofI32 x)], P a := by
      intro a ha
      rcases List.mem_append.1 ha with hmem | hmem
      · exact hst a hmem
      · rw [List.mem_singleton] at hmem
        subst hmem
        exact hx
    simp only [fillContiguousCols]
    cases colors with
    | nil =>
      dsimp only [List.head?]
      split
      · exact hext
      · apply ih ?_ hrest
        split <;> exact hext
    | cons color ctail =>
      dsimp only [List.head?]
      apply ih ?_ hrest
      split <;> exact hext

theorem fillContiguousRows_accesses {startY endY startX : Int} {leftPadding rightPadding : Nat}
    {xs : List Int} {ys : List Int} {st : EngineState} {colors : List Color}
    {P : Nat × Nat → Prop}
    (hst : ∀ a ∈ st.accesses, P a)
    (hys : ∀ y ∈ ys, ∀ x ∈ xs, P (u16ofI32 (y / 2), u16ofI32 x)) :
    ∀ a ∈ (fillContiguousRows startY endY startX leftPadding rightPadding xs ys st
      colors).1.accesses, P a := by
  induction ys generalizing st colors with
  | nil => exact hst
  | cons y rest ih =>
    have hy := hys y (List.mem_cons_self ..)
    have hrest : ∀ y2 ∈ rest, ∀ x ∈ xs, P (u16ofI32 (y2 / 2), u16ofI32 x) := fun y2 hy2 =>
      hys y2 (List.mem_cons_of_mem _ hy2)
    simp only [fillContiguousRows]
    have hcall := @fillContiguousCols_accesses startY endY y (u16ofI32 (y / 2)) xs
      { st with commands := st.commands ++ [Command.moveTo (u16ofI32 startX) (u16ofI32 (y / 2))] }
      (advanceBy colors leftPadding) P hst hy
    rcases hcols : fillContiguousCols startY endY y (u16ofI32 (y / 2)) xs
      { st with commands := st.commands ++ [Command.moveTo (u16ofI32 startX) (u16ofI32 (y / 2))] }
      (advanceBy colors leftPadding) with ⟨st2, colors2, b⟩
    rw [hcols] at hcall
    cases b
    · exact hcall
    · exact ih hcall hrest

theorem fillSolidPartial_accesses {row : Nat} {cols : List Nat} {isTop : Bool}
    {color : Color} {st : EngineState} {P : Nat × Nat → Prop}
    (hst : ∀ a ∈ st.accesses, P a) (hcols : ∀ c ∈ cols, P (row, c)) :
    ∀ a ∈ (fillSolidPartial row cols isTop color st).accesses, P a := by
  induction cols generalizing st with
  | nil => exact hst
  | cons c rest ih =>
    rw [fillSolidPartial_cons]
    apply ih ?_ (fun c2 hc2 => hcols c2 (List.mem_cons_of_mem _ hc2))
    intro a ha
    dsimp only at ha
    rcases List.mem_append.1 ha with hmem | hmem
    · exact hst a hmem
    · rw [List.mem_singleton] at hmem
      subst hmem
      exact hcols c (List.mem_cons_self ..)

theorem fillSolidAligned_accesses {colStart colEnd rowStart rowEnd : Nat} {color : Color}
    {st : EngineState} {P : Nat × Nat → Prop}
    (hst : ∀ a ∈ st.accesses, P a)
    (hP : ∀ r c, rowStart ≤ r → r < rowEnd → colStart ≤ c → c < colEnd → P (r, c)) :
    ∀ a ∈ (fillSolidAligned colStart colEnd rowStart rowEnd color st).accesses, P a := by
  intro a ha
  unfold fillSolidAligned at ha
  dsimp only at ha
  rcases List.mem_append.1 ha with hmem | hmem
  · exact hst a hmem
  · rw [List.mem_flatMap] at hmem
    obtain ⟨r, hr, hmem2⟩ := hmem
    rw [List.mem_map] at hmem2
    obtain ⟨c, hc, rfl⟩ := hmem2
    rw [mem_natRange] at hr hc
    exact hP r c hr.1 hr.2 hc.1 hc.2

/-- C10: for every engine operation, the buffer resize at the start of
the call yields a buffer of exactly the queried terminal dimensions (any
uniformly-sized previous buffer stays uniform at the new size), and every
`(row, column)` buffer index the operation dereferences satisfies
`row < height` and `column < width`, so the panicking out-of-bounds
branch of the Rust indexing is unreachable: the bounding-box check of
`draw_iter` and the clamping of areas to the bounding box keep every
index in range. -/
theorem engine_accesses_in_bounds (w h : Nat) (hw : w < 2 ^ 16) (hh : h < 2 ^ 16) :
    (∀ b w0 h0, bufferWF b w0 h0 → bufferWF (resizeBuffer b w h) w h) ∧
    (∀ pixels st, (∀ a ∈ st.accesses, a.1 < h ∧ a.2 < w) →
      ∀ a ∈ (drawIter w h pixels st).accesses, a.1 < h ∧ a.2 < w) ∧
    (∀ area st colors, (∀ a ∈ st.accesses, a.1 < h ∧ a.2 < w) →
      ∀ a ∈ (fillContiguous w h area st colors).1.accesses, a.1 < h ∧ a.2 < w) ∧
    (∀ area color st, (∀ a ∈ st.accesses, a.1 < h ∧ a.2 < w) →
      ∀ a ∈ (fillSolid w h area color st).accesses, a.1 < h ∧ a.2 < w) ∧
    (∀ color st, (∀ a ∈ st.accesses, a.1 < h ∧ a.2 < w) →
      ∀ a ∈ (clear w h color st).accesses, a.1 < h ∧ a.2 < w) := by
  refine ⟨fun b w0 h0 hwf => resizeBuffer_wf hwf w h,
    fun pixels st hst => drawIter_accesses hw hh hst (fun r c h1 h2 => ⟨h1, h2⟩),
    ?_, ?_, ?_⟩
  · intro area st colors hst
    unfold fillContiguous
    dsimp only
    rcases habr : area.bottomRight with _ | abr
    · dsimp only
      exact hst
    · rcases hcbr : ((boundingBox w h).intersection area).bottomRight with _ | cbr
      · dsimp only
        exact hst
      · dsimp only
        obtain ⟨hx0, hy0, hwpos, hhpos, hxw, hyh, hbrx, hbry⟩ := clamped_bounds hw hh hcbr
        apply fillContiguousRows_accesses hst
        intro y hy x hx
        obtain ⟨i, hi, rfl⟩ := mem_rows.1 hy
        obtain ⟨j, hj, rfl⟩ := mem_columns.1 hx
        rw [u16ofI32_eq_toNat (by omega) (by omega),
          u16ofI32_eq_toNat (by omega) (by omega)]
        exact ⟨by omega, by omega⟩
  · intro area color st hst
    unfold fillSolid
    dsimp only
    rcases hcbr : ((boundingBox w h).intersection area).bottomRight with _ | br
    · exact hst
    · dsimp only
      obtain ⟨hx0, hy0, hwpos, hhpos, hxw, hyh, hbrx, hbry⟩ := clamped_bounds hw hh hcbr
      rw [u16ofI32_eq_toNat hx0 (by omega)]
      split
      · next heven =>
        apply fillSolidPartial_accesses (P := fun a => a.1 < h ∧ a.2 < w)
        · dsimp only
          apply fillSolidAligned_accesses (P := fun a => a.1 < h ∧ a.2 < w)
          · split
            · next hodd =>
              apply fillSolidPartial_accesses (P := fun a => a.1 < h ∧ a.2 < w)
              · exact hst
              · intro c hc
                rw [mem_natRange] at hc
                exact ⟨by omega, by omega⟩
            · exact hst
          · intro r c h1 h2 h3 h4
            exact ⟨by omega, by omega⟩
        · intro c hc
          rw [mem_natRange] at hc
          exact ⟨by omega, by omega⟩
      · next hnoteven =>
        apply fillSolidAligned_accesses (P := fun a => a.1 < h ∧ a.2 < w)
        · split
          · next hodd =>
            apply fillSolidPartial_accesses (P := fun a => a.1 < h ∧ a.2 < w)
            · exact hst
            · intro c hc
              rw [mem_natRange] at hc
              exact ⟨by omega, by omega⟩
          · exact hst
        · intro r c h1 h2 h3 h4
          exact ⟨by omega, by omega⟩
  · intro color st hst
    unfold clear
    apply fillSolidAligned_accesses (P := fun a => a.1 < h ∧ a.2 < w) hst (fun r c h1 h2 h3 h4 => ⟨by omega, by omega⟩)

theorem fillContiguousCols_consume {startY endY y : Int} {row : Nat} {xs : List Int}
    {st : EngineState} {colors : List Color} (hlen : xs.length ≤ colors.length) :
    (fillContiguousCols startY endY y row xs st colors).2.1 = colors.drop xs.length ∧
    (fillContiguousCols startY endY y row xs st colors).2.2 = true := by
  induction xs generalizing st colors with
  | nil => exact ⟨rfl, rfl⟩
  | cons x rest ih =>
    cases colors with
    | nil => simp at hlen
    | cons color ctail =>
      simp only [fillContiguousCols, List.head?]
      have hlen2 : rest.length ≤ ctail.length := by
        simp only [List.length_cons] at hlen
        omega
      split <;> simpa using ih hlen2


theorem fillContiguousRows_consume {startY endY startX : Int}
    {leftPadding rightPadding : Nat} {xs : List Int} {ys : List Int}
    {st : EngineState} {colors : List Color}
    (hlen : ys.length * (leftPadding + xs.length + rightPadding) ≤ colors.length) :
    (fillContiguousRows startY endY startX leftPadding rightPadding xs ys st colors).2 =
      colors.drop (ys.length * (leftPadding + xs.length + rightPadding)) := by
  induction ys generalizing st colors with
  | nil =>
    rw [List.length_nil, Nat.zero_mul, List.drop_zero]
    rfl
  | cons y rest ih =>
    simp only [fillContiguousRows, advanceBy]
    simp only [List.length_cons, Nat.succ_mul] at hlen
    have hlc : xs.length ≤ (colors.drop leftPadding).length := by
      rw [List.length_drop]
      omega
    obtain ⟨hcols1, hcols2⟩ := @fillContiguousCols_consume startY endY y (u16ofI32 (y / 2)) xs
      { st with commands := st.commands ++
        [Command.moveTo (u16ofI32 startX) (u16ofI32 (y / 2))] }
      (colors.drop leftPadding) hlc
    rcases hcall : fillContiguousCols startY endY y (u16ofI32 (y / 2)) xs
      { st with commands := st.commands ++
        [Command.moveTo (u16ofI32 startX) (u16ofI32 (y / 2))] }
      (colors.drop leftPadding) with ⟨st2, colors2, b⟩
    rw [hcall] at hcols1 hcols2
    dsimp only at hcols1 hcols2
    subst hcols2
    dsimp only
    subst hcols1
    have hrest : rest.length * (leftPadding + xs.length + rightPadding) ≤
        (((colors.drop leftPadding).drop xs.length).drop rightPadding).length := by
      simp only [List.length_drop]
      omega
    rw [ih hrest]
    rw [List.drop_drop, List.drop_drop, List.drop_drop]
    congr 1
    simp only [List.length_cons]
    ring

theorem columns_length (r : Rectangle) : r.columns.length = r.size.width := by
  unfold Rectangle.columns
  rw [List.length_map, List.length_range]

theorem rows_length (r : Rectangle) : r.rows.length = r.size.height := by
  unfold Rectangle.rows
  rw [List.length_map, List.length_range]

/-- Counterexample to C1 as stated: on a 2 x 2 terminal (bounding box
2 x 4 pixels), the area with top-left (0, 0) and size 1 x 6 is partially
outside the bounds (it extends below the visible bottom) with a non-empty
4-row intersection, and the sequence holds exactly
`width * height = 6` elements; the claim demands that all 6 be consumed,
but the call leaves the last 2 elements (the two rows below the visible
bottom) unconsumed, advancing the sequence by only 4. -/
theorem fillContiguous_consumption_counterexample :
    ((boundingBox 2 2).intersection ⟨⟨0, 0⟩, ⟨1, 6⟩⟩).size = ⟨1, 4⟩ ∧
    (fillContiguous 2 2 ⟨⟨0, 0⟩, ⟨1, 6⟩⟩ exState
      [Color.Black, Color.Red, Color.Green, Color.Blue, Color.Yellow, Color.White]).2 =
      [Color.Yellow, Color.White] ∧
    (6 : Nat) - 2 ≠ 1 * 6 :=
  ⟨by decide, by decide, by decide⟩

/-- C1 as amended: for an area whose visible intersection with the bounds
is non-empty, whose coordinates and extents are representable without
`i32` wrap, and a color sequence of at least `width * height` elements,
`fill_contiguous` advances the sequence by exactly
`area.width * (top_clip + visible_height)` elements: the elements for the
clipped-away top rows and for the left/right margins of every visible row
are skipped, but the elements for the rows below the visible bottom are
never consumed. -/
theorem fillContiguous_consumption_amended (w h : Nat) (area : Rectangle)
    (st : EngineState) (colors : List Color) (hw : w < 2 ^ 16) (hh : h < 2 ^ 16)
    (cbr : Point) (hcbr : ((boundingBox w h).intersection area).bottomRight = some cbr)
    (hax : -(2 ^ 31) < area.topLeft.x) (hay : -(2 ^ 31) < area.topLeft.y)
    (hnx : area.topLeft.x + area.size.width ≤ 2 ^ 31)
    (hny : area.topLeft.y + area.size.height ≤ 2 ^ 31)
    (haw : area.size.width < 2 ^ 32)
    (hlen : area.size.width * area.size.height ≤ colors.length) :
    (fillContiguous w h area st colors).2 =
      colors.drop (area.size.width *
        ((((boundingBox w h).intersection area).topLeft.y - area.topLeft.y).toNat +
          ((boundingBox w h).intersection area).size.height)) := by
  obtain ⟨abr, habr, htl, hcbr2, hsz, hovx, hovy⟩ := clamped_spec hw hh hcbr
  obtain ⟨hx0, hy0, hwpos, hhpos, hxw, hyh, hbrx, hbry⟩ := clamped_bounds hw hh hcbr
  -- the area corners are exact under the no-wrap hypotheses
  have hwa : area.size.width ≠ 0 ∧ area.size.height ≠ 0 := by
    by_contra hcon
    unfold Rectangle.bottomRight at habr
    rw [if_neg hcon] at habr
    exact Option.noConfusion habr
  have habr2 : abr = ⟨area.topLeft.x + area.size.width - 1,
      area.topLeft.y + area.size.height - 1⟩ := by
    unfold Rectangle.bottomRight at habr
    rw [if_pos hwa] at habr
    rw [wrap32_eq_self (by omega) (by omega), wrap32_eq_self (by omega) (by omega)] at habr
    injection habr with habr
    exact habr.symm
  unfold fillContiguous
  dsimp only
  rw [habr, hcbr]
  dsimp only
  unfold fillPaddings
  dsimp only
  -- express everything through explicit min/max corner coordinates
  rw [htl, hcbr2, habr2]
  dsimp only
  rw [hcbr2, habr2] at hsz hovx hovy
  dsimp only at hsz hovx hovy
  set ax := area.topLeft.x with haxdef
  set ay := area.topLeft.y with haydef
  set aw := area.size.width with hawdef
  set ah := area.size.height with hahdef
  have hlp : usizeOfI32 (wrap32 (max 0 ax - ax)) = (max 0 ax - ax).toNat := by
    have h1 : (0 : Int) ≤ max 0 ax - ax := by omega
    have h2 : max 0 ax - ax < 2 ^ 31 := by omega
    rw [wrap32_eq_self (by omega) (by omega)]
    unfold usizeOfI32
    rw [if_pos h1]
  have htp : usizeOfI32 (wrap32 (max 0 ay - ay)) = (max 0 ay - ay).toNat := by
    have h1 : (0 : Int) ≤ max 0 ay - ay := by omega
    rw [wrap32_eq_self (by omega) (by omega)]
    unfold usizeOfI32
    rw [if_pos h1]
  have habrx : (ax + aw - 1 : Int) < 2 ^ 31 := by omega
  have hrp : usizeOfI32 (wrap32 ((ax + aw - 1) - min ((w : Int) - 1) (ax + aw - 1))) =
      ((ax + aw - 1) - min ((w : Int) - 1) (ax + aw - 1)).toNat := by
    have h1 : (0 : Int) ≤ (ax + aw - 1) - min ((w : Int) - 1) (ax + aw - 1) := by omega
    rw [wrap32_eq_self (by omega) (by omega)]
    unfold usizeOfI32
    rw [if_pos h1]
  rw [hlp, htp, hrp]
  -- the skip count does not wrap
  have hskip : fillSkipCount area ((max 0 ay - ay).toNat) = aw * (max 0 ay - ay).toNat := by
    unfold fillSkipCount
    rw [← hawdef]
    apply Nat.mod_eq_of_lt
    calc aw * (max 0 ay - ay).toNat < 2 ^ 32 * 2 ^ 31 := by
          apply Nat.mul_lt_mul_of_lt_of_le haw (by omega) (by omega)
      _ < 2 ^ 64 := by norm_num
  rw [hskip]
  -- consume through the row loop
  have hclen : ((boundingBox w h).intersection area).columns.length =
      ((boundingBox w h).intersection area).size.width := columns_length _
  have hrlen : ((boundingBox w h).intersection area).rows.length =
      ((boundingBox w h).intersection area).size.height := rows_length _
  have hcw : ((boundingBox w h).intersection area).size.width =
      (((w : Int) - 1) ⊓ (ax + (aw : Int) - 1) - 0 ⊔ ax + 1).toNat := by
    rw [hsz]
  have hch : ((boundingBox w h).intersection area).size.height =
      ((2 * (h : Int) - 1) ⊓ (ay + (ah : Int) - 1) - 0 ⊔ ay + 1).toNat := by
    rw [hsz]
  have hm1x : ax ≤ 0 ⊔ ax := le_max_right _ _
  have hm1y : ay ≤ 0 ⊔ ay := le_max_right _ _
  have hm2x : ((w : Int) - 1) ⊓ (ax + (aw : Int) - 1) ≤ ax + (aw : Int) - 1 := min_le_right _ _
  have hm2y : (2 * (h : Int) - 1) ⊓ (ay + (ah : Int) - 1) ≤ ay + (ah : Int) - 1 := min_le_right _ _
  have hsum : (0 ⊔ ax - ax).toNat + (((w : Int) - 1) ⊓ (ax + (aw : Int) - 1) - 0 ⊔ ax + 1).toNat +
      ((ax + (aw : Int) - 1) - ((w : Int) - 1) ⊓ (ax + (aw : Int) - 1)).toNat = aw := by
    set m1 := (0 : Int) ⊔ ax with hm1def
    set m2 := ((w : Int) - 1) ⊓ (ax + (aw : Int) - 1) with hm2def
    omega
  have htpch : (0 ⊔ ay - ay).toNat +
      ((2 * (h : Int) - 1) ⊓ (ay + (ah : Int) - 1) - 0 ⊔ ay + 1).toNat ≤ ah := by
    set m1 := (0 : Int) ⊔ ay with hm1def
    set m2 := (2 * (h : Int) - 1) ⊓ (ay + (ah : Int) - 1) with hm2def
    omega
  have hdistrib : aw * ((0 ⊔ ay - ay).toNat +
      ((2 * (h : Int) - 1) ⊓ (ay + (ah : Int) - 1) - 0 ⊔ ay + 1).toNat) =
      aw * (0 ⊔ ay - ay).toNat +
      aw * ((2 * (h : Int) - 1) ⊓ (ay + (ah : Int) - 1) - 0 ⊔ ay + 1).toNat := by
    ring
  have hmul : aw * ((0 ⊔ ay - ay).toNat +
      ((2 * (h : Int) - 1) ⊓ (ay + (ah : Int) - 1) - 0 ⊔ ay + 1).toNat) ≤ aw * ah :=
    Nat.mul_le_mul_left aw htpch
  have hpre : ((boundingBox w h).intersection area).rows.length *
      ((0 ⊔ ax - ax).toNat + ((boundingBox w h).intersection area).columns.length +
        ((ax + (aw : Int) - 1) - ((w : Int) - 1) ⊓ (ax + (aw : Int) - 1)).toNat) ≤
      (advanceBy colors (aw * (0 ⊔ ay - ay).toNat)).length := by
    rw [hrlen, hclen, hcw, hch, hsum]
    unfold advanceBy
    rw [List.length_drop]
    have hcomm : ((2 * (h : Int) - 1) ⊓ (ay + (ah : Int) - 1) - 0 ⊔ ay + 1).toNat * aw =
        aw * ((2 * (h : Int) - 1) ⊓ (ay + (ah : Int) - 1) - 0 ⊔ ay + 1).toNat :=
      Nat.mul_comm ..
    omega
  rw [fillContiguousRows_consume hpre]
  unfold advanceBy
  rw [List.drop_drop]
  congr 1
  rw [hrlen, hclen, hcw, hch, hsum]
  ring

/-- Witness for C1 as amended at the counterexample input: the call
consumes the four visible-row elements and leaves the final two. -/
theorem fillContiguous_consumption_amended_witness :
    (fillContiguous 2 2 ⟨⟨0, 0⟩, ⟨1, 6⟩⟩ exState
      [Color.Black, Color.Red, Color.Green, Color.Blue, Color.Yellow, Color.White]).2 =
      [Color.Yellow, Color.White] :=
  fillContiguous_consumption_amended 2 2 ⟨⟨0, 0⟩, ⟨1, 6⟩⟩ exState
    [Color.Black, Color.Red, Color.Green, Color.Blue, Color.Yellow, Color.White]
    (by decide) (by decide) ⟨0, 3⟩ (by decide) (by decide) (by decide) (by decide)
    (by decide) (by decide) (by decide)

theorem countP_glyph_writeCell (t b : Color) :
    (writeCell t b).countP Command.isGlyphWrite = 1 := by
  unfold writeCell
  split
  · rfl
  · split
    · rfl
    · split
      · rfl
      · rfl

theorem fillContiguousCols_commands_extend (startY endY y : Int) (row : Nat) (xs : List Int)
    (st : EngineState) (colors : List Color) :
    ∃ tail, (fillContiguousCols startY endY y row xs st colors).1.commands =
      st.commands ++ tail := by
  induction xs generalizing st colors with
  | nil => exact ⟨[], (List.append_nil _).symm⟩
  | cons x rest ih =>
    simp only [fillContiguousCols]
    cases hc : colors.head? with
    | some color =>
      dsimp only
      split
      · obtain ⟨tail, htail⟩ := ih _ colors.tail
        exact ⟨writeCell _ _ ++ tail, by rw [htail]; dsimp only; rw [List.append_assoc]⟩
      · obtain ⟨tail, htail⟩ := ih _ colors.tail
        exact ⟨tail, by rw [htail]⟩
    | none =>
      dsimp only
      split
      · exact ⟨[], (List.append_nil _).symm⟩
      · split
        · obtain ⟨tail, htail⟩ := ih _ colors.tail
          exact ⟨writeCell _ _ ++ tail, by rw [htail]; dsimp only; rw [List.append_assoc]⟩
        · obtain ⟨tail, htail⟩ := ih _ colors.tail
          exact ⟨tail, by rw [htail]⟩

/-- Counterexample to C5 as stated: on a 2 x 2 terminal, filling the full
4-pixel-row area from a 3-element sequence runs the sequence out at a
bottom-half position (pixel row 1, second column) that is not on the
first visible row.  The claim demands an immediate successful return with
no further glyph writes, which would leave exactly one glyph written (the
cell completed just before the run-out); the code instead writes the
run-out cell from its buffered top half, then queues the next row's
cursor move before stopping, emitting two glyph writes. -/
theorem fillContiguous_early_counterexample :
    (fillContiguous 2 2 ⟨⟨0, 0⟩, ⟨2, 4⟩⟩ exState
        [Color.Red, Color.Green, Color.Blue]).1.commands =
      [Command.moveTo 0 0, Command.moveTo 0 0,
       Command.setBackground CrosstermColor.Red,
       Command.setForeground CrosstermColor.Blue,
       Command.writeGlyph Glyph.lower,
       Command.setBackground CrosstermColor.Reset,
       Command.setForeground CrosstermColor.Green,
       Command.writeGlyph Glyph.upper,
       Command.moveTo 0 1] ∧
    (fillContiguous 2 2 ⟨⟨0, 0⟩, ⟨2, 4⟩⟩ exState
        [Color.Red, Color.Green, Color.Blue]).1.commands.countP Command.isGlyphWrite = 2 ∧
    (2 : Nat) ≠ 1 :=
  ⟨by decide, by decide, by decide⟩

/-- C5 as amended: when the color sequence is exhausted, a next() that
returns none at a top-half position or anywhere on the first visible row
makes the fill return success immediately (recording only the one buffer
access the code performs before the check, touching neither the buffer
nor the command queue and consuming nothing); but a none at a bottom-half
position of any other row — the bottom boundary row included — does not
stop the row: the code writes one glyph per remaining column of that row
from the buffered top halves (buffer unchanged, nothing consumed) and
only then lets the next row stop the fill.  In both cases the call
returns success, never an error. -/
theorem fillContiguous_early_amended (startY endY y : Int) (row : Nat)
    (xs : List Int) (st : EngineState) :
    ((y % 2 = 0 ∨ y = startY) → ∀ x rest, xs = x :: rest →
      fillContiguousCols startY endY y row xs st [] =
        ({ st with accesses := st.accesses ++ [(row, u16ofI32 x)] }, [], false)) ∧
    (y % 2 ≠ 0 → y ≠ startY →
      (fillContiguousCols startY endY y row xs st []).1.buffer = st.buffer ∧
      (fillContiguousCols startY endY y row xs st []).2.1 = [] ∧
      (fillContiguousCols startY endY y row xs st []).2.2 = true ∧
      ((fillContiguousCols startY endY y row xs st []).1.commands.drop
        st.commands.length).countP Command.isGlyphWrite = xs.length) := by
  constructor
  · rintro hstop x rest rfl
    simp only [fillContiguousCols, List.head?]
    rw [if_pos (by
      rcases hstop with hs | hs
      · exact Or.inl (by simp [hs])
      · exact Or.inr hs)]
    rfl
  · intro hbot hrow
    induction xs generalizing st with
    | nil =>
      refine ⟨rfl, rfl, rfl, ?_⟩
      show (st.commands.drop st.commands.length).countP Command.isGlyphWrite = 0
      rw [List.drop_length]
      rfl
    | cons x rest ih =>
      simp only [fillContiguousCols, List.head?, List.tail_nil]
      rw [if_neg (by
        rintro (hs | hs)
        · rw [decide_eq_true_iff] at hs
          exact hbot hs
        · exact hrow hs)]
      rw [if_pos (Or.inl (by simp [hbot]))]
      set st2 : EngineState :=
        { st with
            accesses := st.accesses ++ [(row, u16ofI32 x)],
            commands := st.commands ++
              writeCell (getCell st.buffer row (u16ofI32 x)).1
                (getCell st.buffer row (u16ofI32 x)).2 } with hst2
      obtain ⟨hb, hc1, hc2, hcount⟩ := ih st2
      refine ⟨?_, hc1, hc2, ?_⟩
      · rw [hb]
      · obtain ⟨tail, htail⟩ := fillContiguousCols_commands_extend startY endY y row rest st2 []
        have hcount2 : tail.countP Command.isGlyphWrite = rest.length := by
          rw [htail, List.drop_left] at hcount
          exact hcount
        have hcomm : (fillContiguousCols startY endY y row rest st2 []).1.commands =
            st.commands ++
              (writeCell (getCell st.buffer row (u16ofI32 x)).1
                (getCell st.buffer row (u16ofI32 x)).2 ++ tail) := by
          rw [htail, hst2]
          dsimp only
          rw [List.append_assoc]
        rw [hcomm, List.drop_left, List.countP_append, countP_glyph_writeCell, hcount2]
        rw [List.length_cons]
        omega

/-- Witness for C5 as amended: running out at a top-half position (pixel
row 2) stops the fill at once, recording only the single buffer access. -/
theorem fillContiguous_early_amended_witness :
    fillContiguousCols 0 3 2 1 [0, 1] exState [] =
      ({ exState with accesses := exState.accesses ++ [(1, u16ofI32 0)] }, [], false) :=
  (fillContiguous_early_amended 0 3 2 1 [0, 1] exState).1 (Or.inl (by decide)) 0 [1] rfl

/-- The rectangle used to exhibit skip-count overflow: top edge at the
lowest representable `i32` pixel row, tall enough to reach the visible
area of a 4 x 4 terminal. -/
def area9 : Rectangle := ⟨⟨0, -(2 ^ 31)⟩, ⟨2, 2 ^ 31 + 9⟩⟩

/-- Counterexample to C9 as stated: for `area9` on a 4 x 4 terminal the
true leading-row skip count is `(visible.top - area.top) * area.width =
2 ^ 31 * 2 = 2 ^ 32`, which is representable in a 64-bit `usize`; the
computed `top_padding` saturates to `usize::MAX`, but the skip product
`width * top_padding` then wraps modulo `2 ^ 64` to `2 ^ 64 - 2` — a
value that is neither the true count nor the saturated maximum, so the
skip arithmetic does not saturate as claimed (it only happens to stay
above the true count). -/
theorem fillPaddings_skip_counterexample :
    area9.bottomRight = some ⟨1, 8⟩ ∧
    ((boundingBox 4 4).intersection area9).bottomRight = some ⟨1, 7⟩ ∧
    (((boundingBox 4 4).intersection area9).topLeft.y - area9.topLeft.y : Int) = 2 ^ 31 ∧
    fillPaddings area9 ((boundingBox 4 4).intersection area9) ⟨1, 8⟩ ⟨1, 7⟩ =
      (0, 0, usizeMAX) ∧
    fillSkipCount area9 usizeMAX = 2 ^ 64 - 2 ∧
    area9.size.width * 2 ^ 31 = 2 ^ 32 ∧
    (2 ^ 64 - 2 : Nat) ≠ 2 ^ 32 ∧ (2 ^ 64 - 2 : Nat) ≠ usizeMAX :=
  ⟨by decide, by decide, by decide, by decide, by decide, by decide, by decide, by decide⟩

theorem usizeOfI32_wrap32_sat {t : Int} (h0 : 0 ≤ t) (h1 : t ≤ 2 ^ 31) :
    usizeOfI32 (wrap32 t) = if t < 2 ^ 31 then t.toNat else usizeMAX := by
  split
  · next hlt =>
    rw [wrap32_eq_self (by omega) (by omega)]
    unfold usizeOfI32
    rw [if_pos h0]
  · next hge =>
    have ht : t = 2 ^ 31 := by omega
    subst ht
    decide

/-- C9 as amended: the left and top padding conversions saturate — each
computed value equals the true padding when that fits below `2 ^ 31` and
`usize::MAX` when the `i32` subtraction wraps — the right padding is
always exact, and the leading skip count, though it may wrap modulo
`2 ^ 64` instead of saturating, is never less than the true element count
`width * top_padding`, so clipping never skips fewer elements than the
contract requires. -/
theorem fillPaddings_amended (w h : Nat) (area : Rectangle) (abr cbr : Point)
    (hw : w < 2 ^ 16) (hh : h < 2 ^ 16)
    (hcbr : ((boundingBox w h).intersection area).bottomRight = some cbr)
    (habr : area.bottomRight = some abr)
    (hax1 : -(2 ^ 31) ≤ area.topLeft.x) (hax2 : area.topLeft.x < 2 ^ 31)
    (hay1 : -(2 ^ 31) ≤ area.topLeft.y) (hay2 : area.topLeft.y < 2 ^ 31)
    (haw : area.size.width < 2 ^ 32) :
    ((fillPaddings area ((boundingBox w h).intersection area) abr cbr).1 =
      if ((boundingBox w h).intersection area).topLeft.x - area.topLeft.x < 2 ^ 31 then
        (((boundingBox w h).intersection area).topLeft.x - area.topLeft.x).toNat
      else usizeMAX) ∧
    ((fillPaddings area ((boundingBox w h).intersection area) abr cbr).2.1 =
      (abr.x - cbr.x).toNat) ∧
    ((fillPaddings area ((boundingBox w h).intersection area) abr cbr).2.2 =
      if ((boundingBox w h).intersection area).topLeft.y - area.topLeft.y < 2 ^ 31 then
        (((boundingBox w h).intersection area).topLeft.y - area.topLeft.y).toNat
      else usizeMAX) ∧
    ((((boundingBox w h).intersection area).topLeft.x - area.topLeft.x).toNat ≤
      (fillPaddings area ((boundingBox w h).intersection area) abr cbr).1) ∧
    ((((boundingBox w h).intersection area).topLeft.y - area.topLeft.y).toNat ≤
      (fillPaddings area ((boundingBox w h).intersection area) abr cbr).2.2) ∧
    (area.size.width *
        ((((boundingBox w h).intersection area).topLeft.y - area.topLeft.y).toNat) ≤
      fillSkipCount area
        (fillPaddings area ((boundingBox w h).intersection area) abr cbr).2.2) := by
  obtain ⟨abr2, habr2, htl, hcbr2, hsz, hovx, hovy⟩ := clamped_spec hw hh hcbr
  have hsame : abr2 = abr := by
    rw [habr2] at habr
    injection habr
  subst hsame
  have habr_bounds : -(2 ^ 31) ≤ abr2.x ∧ abr2.x < 2 ^ 31 ∧
      -(2 ^ 31) ≤ abr2.y ∧ abr2.y < 2 ^ 31 := by
    unfold Rectangle.bottomRight at habr2
    split at habr2
    · injection habr2 with habr2
      rw [← habr2]
      exact ⟨wrap32_le _, wrap32_lt _, wrap32_le _, wrap32_lt _⟩
    · exact Option.noConfusion habr2
  obtain ⟨hb1, hb2, hb3, hb4⟩ := habr_bounds
  unfold fillPaddings
  rw [htl, hcbr2]
  dsimp only
  set ax := area.topLeft.x with haxdef
  set ay := area.topLeft.y with haydef
  have htx0 : (0 : Int) ≤ max 0 ax - ax := by omega
  have htx1 : max 0 ax - ax ≤ 2 ^ 31 := by omega
  have hty0 : (0 : Int) ≤ max 0 ay - ay := by omega
  have hty1 : max 0 ay - ay ≤ 2 ^ 31 := by omega
  have hminx : (0 : Int) ≤ min ((w : Int) - 1) abr2.x := by
    have h0 : (0 : Int) ≤ 0 ⊔ ax := le_max_left _ _
    rw [hcbr2] at hovx
    dsimp only at hovx
    omega
  have hrx0 : (0 : Int) ≤ abr2.x - min ((w : Int) - 1) abr2.x := by
    have := min_le_right ((w : Int) - 1) abr2.x
    omega
  have hrx1 : abr2.x - min ((w : Int) - 1) abr2.x < 2 ^ 31 := by omega
  refine ⟨?_, ?_, ?_, ?_, ?_, ?_⟩
  · rw [usizeOfI32_wrap32_sat htx0 htx1]
  · rw [wrap32_eq_self (by omega) (by omega)]
    unfold usizeOfI32
    rw [if_pos hrx0]
  · rw [usizeOfI32_wrap32_sat hty0 hty1]
  · rw [usizeOfI32_wrap32_sat htx0 htx1]
    split
    · exact Nat.le_refl _
    · unfold usizeMAX
      omega
  · rw [usizeOfI32_wrap32_sat hty0 hty1]
    split
    · exact Nat.le_refl _
    · unfold usizeMAX
      omega
  · rw [usizeOfI32_wrap32_sat hty0 hty1]
    unfold fillSkipCount
    split
    · next hlt =>
      rw [Nat.mod_eq_of_lt]
      calc area.size.width * (max 0 ay - ay).toNat < 2 ^ 32 * 2 ^ 31 := by
            apply Nat.mul_lt_mul_of_lt_of_le haw (by omega) (by omega)
        _ < 2 ^ 64 := by norm_num
    · next hge =>
      have hty : (max 0 ay - ay).toNat = 2 ^ 31 := by omega
      rw [hty]
      unfold usizeMAX
      rcases Nat.eq_zero_or_pos area.size.width with h0 | h0
      · rw [h0]
        simp
      · have heq : area.size.width * (2 ^ 64 - 1) =
            2 ^ 64 * (area.size.width - 1) + (2 ^ 64 - area.size.width) := by
          omega
        rw [heq]
        rw [Nat.mul_add_mod]
        rw [Nat.mod_eq_of_lt (by omega)]
        have hb : area.size.width * 2 ^ 31 + area.size.width ≤ 2 ^ 64 := by
          calc area.size.width * 2 ^ 31 + area.size.width
              = area.size.width * (2 ^ 31 + 1) := by ring
            _ ≤ (2 ^ 32 - 1) * (2 ^ 31 + 1) := by
                apply Nat.mul_le_mul_right
                omega
            _ ≤ 2 ^ 64 := by norm_num
        omega

/-- Witness for C9 as amended at the overflow input `area9`. -/
theorem fillPaddings_amended_witness :
    ((fillPaddings area9 ((boundingBox 4 4).intersection area9) ⟨1, 8⟩ ⟨1, 7⟩).1 =
      if ((boundingBox 4 4).intersection area9).topLeft.x - area9.topLeft.x < 2 ^ 31 then
        (((boundingBox 4 4).intersection area9).topLeft.x - area9.topLeft.x).toNat
      else usizeMAX) ∧
    ((fillPaddings area9 ((boundingBox 4 4).intersection area9) ⟨1, 8⟩ ⟨1, 7⟩).2.1 =
      ((⟨1, 8⟩ : Point).x - (⟨1, 7⟩ : Point).x).toNat) ∧
    ((fillPaddings area9 ((boundingBox 4 4).intersection area9) ⟨1, 8⟩ ⟨1, 7⟩).2.2 =
      if ((boundingBox 4 4).intersection area9).topLeft.y - area9.topLeft.y < 2 ^ 31 then
        (((boundingBox 4 4).intersection area9).topLeft.y - area9.topLeft.y).toNat
      else usizeMAX) ∧
    ((((boundingBox 4 4).intersection area9).topLeft.x - area9.topLeft.x).toNat ≤
      (fillPaddings area9 ((boundingBox 4 4).intersection area9) ⟨1, 8⟩ ⟨1, 7⟩).1) ∧
    ((((boundingBox 4 4).intersection area9).topLeft.y - area9.topLeft.y).toNat ≤
      (fillPaddings area9 ((boundingBox 4 4).intersection area9) ⟨1, 8⟩ ⟨1, 7⟩).2.2) ∧
    (area9.size.width *
        ((((boundingBox 4 4).intersection area9).topLeft.y - area9.topLeft.y).toNat) ≤
      fillSkipCount area9
        (fillPaddings area9 ((boundingBox 4 4).intersection area9) ⟨1, 8⟩ ⟨1, 7⟩).2.2) :=
  fillPaddings_amended 4 4 area9 ⟨1, 8⟩ ⟨1, 7⟩ (by decide) (by decide) (by decide)
    (by decide) (by decide) (by decide) (by decide) (by decide) (by decide)

theorem drawIter_append (w h : Nat) (p1 p2 : List (Point × Color)) (st : EngineState) :
    drawIter w h (p1 ++ p2) st = drawIter w h p2 (drawIter w h p1 st) := by
  induction p1 generalizing st with
  | nil => rfl
  | cons pc rest ih =>
    obtain ⟨point, color⟩ := pc
    rw [List.cons_append]
    simp only [drawIter]
    split
    · exact ih _
    · exact ih _

/-- The row-major pixel sequence over `area` paired with a color list:
the specification's reference `draw_iter` call that `fill_contiguous` is
claimed to refine (one pixel per area position, rows outermost). -/
def rowMajorPixels (area : Rectangle) (colors : List Color) : List (Point × Color) :=
  (area.rows.flatMap fun y => area.columns.map fun x => (⟨x, y⟩ : Point)).zip colors

theorem refineCols (w h : Nat) (hw : w < 2 ^ 16) (hh : h < 2 ^ 16)
    (startY endY y : Int) (xs : List Int) (st1 st2 : EngineState)
    (hbuf : st1.buffer = st2.buffer) (colors : List Color)
    (hxs : ∀ x ∈ xs, 0 ≤ x ∧ x < (w : Int)) (hy : 0 ≤ y ∧ y < 2 * (h : Int))
    (hlen : xs.length ≤ colors.length) :
    (fillContiguousCols startY endY y (u16ofI32 (y / 2)) xs st1 colors).1.buffer =
      (drawIter w h ((xs.map fun x => ((⟨x, y⟩ : Point))).zip colors) st2).buffer ∧
    (fillContiguousCols startY endY y (u16ofI32 (y / 2)) xs st1 colors).2.1 =
      colors.drop xs.length ∧
    (fillContiguousCols startY endY y (u16ofI32 (y / 2)) xs st1 colors).2.2 = true := by
  induction xs generalizing st1 st2 colors with
  | nil => exact ⟨hbuf, rfl, rfl⟩
  | cons x rest ih =>
    cases colors with
    | nil => simp at hlen
    | cons color ctail =>
      have hx := hxs x (List.mem_cons_self ..)
      have hcontains : (boundingBox w h).contains ⟨x, y⟩ = true :=
        (contains_boundingBox hw hh ⟨x, y⟩).2 ⟨hx.1, hx.2, hy.1, hy.2⟩
      rw [List.map_cons, List.zip_cons_cons]
      simp only [fillContiguousCols, List.head?, List.tail_cons, drawIter]
      rw [if_pos hcontains]
      dsimp only
      have hlen2 : rest.length ≤ ctail.length := by
        simp only [List.length_cons] at hlen
        omega
      have hres := ih
        (if decide (y % 2 = 0) = false ∨ y = endY then
          { st1 with
              accesses := st1.accesses ++ [(u16ofI32 (y / 2), u16ofI32 x)],
              buffer := setCell st1.buffer (u16ofI32 (y / 2)) (u16ofI32 x)
                (updateHalf (getCell st1.buffer (u16ofI32 (y / 2)) (u16ofI32 x))
                  (decide (y % 2 = 0)) color),
              commands := st1.commands ++
                writeCell
                  (updateHalf (getCell st1.buffer (u16ofI32 (y / 2)) (u16ofI32 x))
                    (decide (y % 2 = 0)) color).1
                  (updateHalf (getCell st1.buffer (u16ofI32 (y / 2)) (u16ofI32 x))
                    (decide (y % 2 = 0)) color).2 }
          else
          { st1 with
              accesses := st1.accesses ++ [(u16ofI32 (y / 2), u16ofI32 x)],
              buffer := setCell st1.buffer (u16ofI32 (y / 2)) (u16ofI32 x)
                (updateHalf (getCell st1.buffer (u16ofI32 (y / 2)) (u16ofI32 x))
                  (decide (y % 2 = 0)) color) })
        ({ st2 with
            commands := (st2.commands ++ [Command.moveTo (u16ofI32 x) (u16ofI32 (y / 2))]) ++
              writeCell
                (updateHalf (getCell st2.buffer (u16ofI32 (y / 2)) (u16ofI32 x))
                  (decide (y % 2 = 0)) color).1
                (updateHalf (getCell st2.buffer (u16ofI32 (y / 2)) (u16ofI32 x))
                  (decide (y % 2 = 0)) color).2,
            accesses := st2.accesses ++ [(u16ofI32 (y / 2), u16ofI32 x)],
            buffer := setCell st2.buffer (u16ofI32 (y / 2)) (u16ofI32 x)
              (updateHalf (getCell st2.buffer (u16ofI32 (y / 2)) (u16ofI32 x))
                (decide (y % 2 = 0)) color) })
        (by split <;> (dsimp only; rw [hbuf])) ctail
        (fun x2 hx2 => hxs x2 (List.mem_cons_of_mem _ hx2)) hlen2
      refine ⟨?_, ?_, hres.2.2⟩
      · rw [← hres.1]
      · rw [hres.2.1]
        rfl

theorem zip_append_drop {α β : Type} (l1 l2 : List α) (c : List β)
    (h : l1.length ≤ c.length) :
    (l1 ++ l2).zip c = l1.zip c ++ l2.zip (c.drop l1.length) := by
  induction l1 generalizing c with
  | nil => simp
  | cons a r ih =>
    cases c with
    | nil => simp at h
    | cons b cr =>
      simp only [List.cons_append, List.zip_cons_cons, List.length_cons,
        List.drop_succ_cons]
      rw [ih cr (by simp only [List.length_cons] at h; omega)]

theorem refineRows (w h : Nat) (hw : w < 2 ^ 16) (hh : h < 2 ^ 16)
    (startY endY startX : Int) (xs ys : List Int)
    (st1 st2 : EngineState) (hbuf : st1.buffer = st2.buffer) (colors : List Color)
    (hxs : ∀ x ∈ xs, 0 ≤ x ∧ x < (w : Int))
    (hys : ∀ y ∈ ys, 0 ≤ y ∧ y < 2 * (h : Int))
    (hlen : colors.length = ys.length * xs.length) :
    (fillContiguousRows startY endY startX 0 0 xs ys st1 colors).1.buffer =
      (drawIter w h
        ((ys.flatMap fun y => xs.map fun x => (⟨x, y⟩ : Point)).zip colors) st2).buffer ∧
    (fillContiguousRows startY endY startX 0 0 xs ys st1 colors).2 = [] := by
  induction ys generalizing st1 st2 colors with
  | nil =>
    have hcnil : colors = [] := List.length_eq_zero.1 (by
      simp only [List.length_nil, Nat.zero_mul] at hlen
      exact hlen)
    subst hcnil
    exact ⟨by simpa using hbuf, rfl⟩
  | cons y rest ih =>
    have hy := hys y (List.mem_cons_self ..)
    have hxslen : xs.length ≤ colors.length := by
      rw [hlen, List.length_cons, Nat.succ_mul]
      omega
    simp only [fillContiguousRows, advanceBy, List.drop_zero]
    rw [List.flatMap_cons,
      zip_append_drop _ _ _ (by rw [List.length_map]; exact hxslen),
      drawIter_append]
    rw [List.length_map]
    obtain ⟨hc1, hc2, hc3⟩ := refineCols w h hw hh startY endY y xs
      { st1 with commands := st1.commands ++
          [Command.moveTo (u16ofI32 startX) (u16ofI32 (y / 2))] }
      st2 hbuf colors hxs hy hxslen
    rcases hcall : fillContiguousCols startY endY y (u16ofI32 (y / 2)) xs
      { st1 with commands := st1.commands ++
          [Command.moveTo (u16ofI32 startX) (u16ofI32 (y / 2))] }
      colors with ⟨stA, colorsA, b⟩
    rw [hcall] at hc1 hc2 hc3
    dsimp only at hc1 hc2 hc3
    subst hc3
    dsimp only
    subst hc2
    exact ih stA
      (drawIter w h ((xs.map fun x => (⟨x, y⟩ : Point)).zip colors) st2)
      hc1 (colors.drop xs.length)
      (fun y2 hy2 => hys y2 (List.mem_cons_of_mem _ hy2))
      (by
        rw [List.length_drop, hlen, List.length_cons, Nat.succ_mul]
        omega)

theorem intersection_of_inside (w h : Nat) (area : Rectangle)
    (hw : w < 2 ^ 16) (hh : h < 2 ^ 16)
    (hx0 : 0 ≤ area.topLeft.x) (hy0 : 0 ≤ area.topLeft.y)
    (hxw : area.topLeft.x + area.size.width ≤ (w : Int))
    (hyh : area.topLeft.y + area.size.height ≤ 2 * (h : Int))
    (hwi : area.size.width ≠ 0) (hhi : area.size.height ≠ 0) :
    (boundingBox w h).intersection area = area := by
  obtain ⟨⟨ax, ay⟩, aw, ah⟩ := area
  dsimp only at *
  have hw0 : 0 < w := by omega
  have hh0 : 0 < h := by omega
  have habr : Rectangle.bottomRight ⟨⟨ax, ay⟩, ⟨aw, ah⟩⟩ =
      some ⟨ax + (aw : Int) - 1, ay + (ah : Int) - 1⟩ := by
    unfold Rectangle.bottomRight
    rw [if_pos ⟨hwi, hhi⟩]
    dsimp only
    rw [wrap32_eq_self (by omega) (by omega), wrap32_eq_self (by omega) (by omega)]
  unfold Rectangle.intersection
  rw [boundingBox_bottomRight hw hh hw0 hh0, habr]
  simp only [boundingBox, size]
  rw [max_eq_right hx0, max_eq_right hy0,
    min_eq_right (by omega : ax + (aw : Int) - 1 ≤ (w : Int) - 1),
    min_eq_right (by omega : ay + (ah : Int) - 1 ≤ 2 * (h : Int) - 1)]
  rw [if_pos ⟨by omega, by omega⟩]
  have e1 : (ax + (aw : Int) - 1 - ax + 1).toNat = aw := by omega
  have e2 : (ay + (ah : Int) - 1 - ay + 1).toNat = ah := by omega
  rw [e1, e2]

/-- C2: for an area fully inside the terminal bounds and a color sequence
of exactly `width * height` elements, `fill_contiguous` consumes the whole
sequence and leaves the cell buffer in exactly the state produced by
feeding the same colors through `draw_iter` as individual pixel writes in
row-major order over the area. -/
theorem fillContiguous_refines_drawIter (w h : Nat) (area : Rectangle)
    (st : EngineState) (colors : List Color)
    (hw : w < 2 ^ 16) (hh : h < 2 ^ 16)
    (hx0 : 0 ≤ area.topLeft.x) (hy0 : 0 ≤ area.topLeft.y)
    (hxw : area.topLeft.x + area.size.width ≤ (w : Int))
    (hyh : area.topLeft.y + area.size.height ≤ 2 * (h : Int))
    (hlen : colors.length = area.size.width * area.size.height) :
    (fillContiguous w h area st colors).1.buffer =
      (drawIter w h (rowMajorPixels area colors) st).buffer ∧
    (fillContiguous w h area st colors).2 = [] := by
  by_cases hz : area.size.width = 0 ∨ area.size.height = 0
  · have hcnil : colors = [] := List.length_eq_zero.1 (by
      rw [hlen]
      rcases hz with hz | hz <;> rw [hz] <;> ring)
    subst hcnil
    have habr : area.bottomRight = none := by
      unfold Rectangle.bottomRight
      rw [if_neg (by tauto)]
    unfold fillContiguous
    dsimp only
    rw [habr]
    dsimp only
    constructor
    · unfold rowMajorPixels
      rw [List.zip_nil_right]
      rfl
    · rfl
  · push_neg at hz
    have hsame := intersection_of_inside w h area hw hh hx0 hy0 hxw hyh hz.1 hz.2
    have habr : area.bottomRight =
        some ⟨area.topLeft.x + (area.size.width : Int) - 1,
          area.topLeft.y + (area.size.height : Int) - 1⟩ := by
      unfold Rectangle.bottomRight
      rw [if_pos ⟨hz.1, hz.2⟩]
      rw [wrap32_eq_self (by omega) (by omega), wrap32_eq_self (by omega) (by omega)]
    unfold fillContiguous
    dsimp only
    rw [hsame, habr]
    dsimp only
    unfold fillPaddings
    dsimp only
    simp only [sub_self]
    have hz0 : usizeOfI32 (wrap32 0) = 0 := by decide
    rw [hz0]
    have hskip0 : fillSkipCount area 0 = 0 := by
      unfold fillSkipCount
      rw [Nat.mul_zero, Nat.zero_mod]
    rw [hskip0]
    have hres := refineRows w h hw hh area.topLeft.y
      (area.topLeft.y + (area.size.height : Int) - 1) area.topLeft.x
      area.columns area.rows st st rfl (advanceBy colors 0)
      (fun x hx => by
        obtain ⟨j, hj, rfl⟩ := mem_columns.1 hx
        constructor
        · omega
        · omega)
      (fun y hy => by
        obtain ⟨i, hi, rfl⟩ := mem_rows.1 hy
        constructor
        · omega
        · omega)
      (by
        unfold advanceBy
        rw [List.drop_zero, hlen, rows_length, columns_length]
        ring)
    constructor
    · rw [hres.1]
      unfold rowMajorPixels
      unfold advanceBy
      rw [List.drop_zero]
    · rw [hres.2]

/-- Witness for C2 on a 2 x 2 terminal with the interior area from
pixel (0, 1) of size 2 x 2 and four distinct colors. -/
theorem fillContiguous_refines_drawIter_witness :
    (fillContiguous 2 2 ⟨⟨0, 1⟩, ⟨2, 2⟩⟩ exState
        [Color.Red, Color.Green, Color.Blue, Color.Yellow]).1.buffer =
      (drawIter 2 2 (rowMajorPixels ⟨⟨0, 1⟩, ⟨2, 2⟩⟩
        [Color.Red, Color.Green, Color.Blue, Color.Yellow]) exState).buffer ∧
    (fillContiguous 2 2 ⟨⟨0, 1⟩, ⟨2, 2⟩⟩ exState
        [Color.Red, Color.Green, Color.Blue, Color.Yellow]).2 = [] :=
  fillContiguous_refines_drawIter 2 2 ⟨⟨0, 1⟩, ⟨2, 2⟩⟩ exState
    [Color.Red, Color.Green, Color.Blue, Color.Yellow]
    (by decide) (by decide) (by decide) (by decide) (by decide) (by decide) (by decide)

/-- Witness for C10: on a 2 x 2 terminal, a `fill_contiguous` call covering
the whole screen records the buffer access (1, 1), and that access is
within the terminal dimensions. -/
theorem engine_accesses_in_bounds_witness :
    (1, 1) ∈ (fillContiguous 2 2 ⟨⟨0, 0⟩, ⟨2, 4⟩⟩ exState
        [Color.Red, Color.Green, Color.Blue, Color.Yellow,
         Color.Red, Color.Green, Color.Blue, Color.Yellow]).1.accesses ∧
    (1 : Nat) < 2 ∧ (1 : Nat) < 2 :=
  ⟨by decide,
    (engine_accesses_in_bounds 2 2 (by decide) (by decide)).2.2.1
      ⟨⟨0, 0⟩, ⟨2, 4⟩⟩ exState
      [Color.Red, Color.Green, Color.Blue, Color.Yellow,
       Color.Red, Color.Green, Color.Blue, Color.Yellow]
      (by intro a ha; simp only [exState] at ha; exact absurd ha (List.not_mem_nil a))
      (1, 1) (by decide)⟩

end TerminalDisplay
